import Mathlib

/-!
# Veer09/container: the image and layer stores of the `pull` command

A shallow embedding of `src/internal/pull.go` and `src/main.go`.

The Go code talks to three collaborators, which are modelled as follows.

* **The filesystem** (`os.Stat`, `os.MkdirAll`, `os.Create`, `File.Write`,
  `io.Copy` into a file) is a finite map from absolute paths to nodes.  A path
  is held as the list of its slash-separated components, and a relative path of
  the program is resolved against the working directory of the process.  The
  model has directories and regular files only (no symbolic links), one user (no
  permission failures) and no resource exhaustion: a call fails exactly when the
  shape of the tree makes it fail (`ENOENT`, `ENOTDIR`, `EISDIR`, `EEXIST`).
* **The registry client** (`name.ParseReference`, `remote.Image`, `v1.Image`,
  `v1.Layer`) and `json.MarshalIndent` are parameters: an image handle is a
  record of the answers its methods give.
* **The tar reader** is the list of headers `tarReader.Next()` returns, each
  with the bytes `io.Copy` gets out of its body, and the way the stream ends.

Every function returns the world it leaves behind next to its Go result, also
when that result is an error: the world holds the filesystem and the trace of
what the process printed and called.
-/

namespace Container

/-! ## Filesystem -/

/-- The bytes of a file or of an archive member. -/
abbrev Bytes := List Nat

/-- A filesystem object: a directory or a regular file with its content. -/
inductive Node where
  | dir
  | file (content : Bytes)
  deriving DecidableEq, Repr

/-- An absolute path, as the list of its components from the root (`[]`). -/
abbrev Path := List String

/-- The filesystem: an association list from absolute paths to nodes, the first
entry for a path being the current one. -/
abbrev FS := List (Path × Node)

/-- The error numbers the modelled system calls can return. -/
inductive Errno where
  | ENOENT
  | ENOTDIR
  | EISDIR
  | EEXIST
  deriving DecidableEq, Repr

deriving instance DecidableEq for Except

/-- The first entry recorded for `p`. -/
def find : FS → Path → Option Node
  | [], _ => none
  | (q, n) :: rest, p => if q = p then some n else find rest p

/-- The node at `p`, if any; the root always is a directory. -/
def lookup (fs : FS) (p : Path) : Option Node :=
  if p = [] then some Node.dir else find fs p

/-- Path resolution by the kernel: starting from the node `cur` at `pre`, walk
down the components; passing through a regular file is `ENOTDIR`, a missing
component is `ENOENT`. -/
def walk (fs : FS) : Path → Node → List String → Except Errno Node
  | _, cur, [] => Except.ok cur
  | _, Node.file _, _ :: _ => Except.error Errno.ENOTDIR
  | pre, Node.dir, c :: cs =>
    match lookup fs (pre ++ [c]) with
    | none => Except.error Errno.ENOENT
    | some n => walk fs (pre ++ [c]) n cs

/-- The system call behind `os.Stat`, on an absolute path. -/
def stat (fs : FS) (p : Path) : Except Errno Node :=
  walk fs [] Node.dir p

/-- The system call behind `os.Mkdir`: the parent must resolve to a directory
and the path itself must not exist. -/
def mkdir (fs : FS) (p : Path) : FS × Option Errno :=
  if p = [] then (fs, some Errno.EEXIST)
  else
    match stat fs p.dropLast with
    | Except.error e => (fs, some e)
    | Except.ok (Node.file _) => (fs, some Errno.ENOTDIR)
    | Except.ok Node.dir =>
      match lookup fs p with
      | some _ => (fs, some Errno.EEXIST)
      | none => ((p, Node.dir) :: fs, none)

/-- The recursion of `os.MkdirAll`, on the reversed path: a fast path when
`Stat` answers (nil for a directory, `ENOTDIR` for a file), otherwise the parent
is made first and then `Mkdir` is called, whose error is forgiven when the path
is a directory after all. -/
def mkdirAllRev (fs : FS) : List String → FS × Option Errno
  | [] => (fs, none)
  | c :: par =>
    match stat fs (c :: par).reverse with
    | Except.ok Node.dir => (fs, none)
    | Except.ok (Node.file _) => (fs, some Errno.ENOTDIR)
    | Except.error _ =>
      match mkdirAllRev fs par with
      | (fs1, some e) => (fs1, some e)
      | (fs1, none) =>
        match mkdir fs1 (c :: par).reverse with
        | (fs2, none) => (fs2, none)
        | (fs2, some e) =>
          match stat fs2 (c :: par).reverse with
          | Except.ok Node.dir => (fs2, none)
          | _ => (fs2, some e)

/-- The function `os.MkdirAll` on an absolute path. -/
def mkdirAll (fs : FS) (p : Path) : FS × Option Errno :=
  mkdirAllRev fs p.reverse

/-- The function `os.Create` (open with `O_RDWR|O_CREATE|O_TRUNC`): the parent
must resolve to a directory and the path must not be a directory; the file is
left empty. -/
def create (fs : FS) (p : Path) : FS × Option Errno :=
  if p = [] then (fs, some Errno.EISDIR)
  else
    match stat fs p.dropLast with
    | Except.error e => (fs, some e)
    | Except.ok (Node.file _) => (fs, some Errno.ENOTDIR)
    | Except.ok Node.dir =>
      match lookup fs p with
      | some Node.dir => (fs, some Errno.EISDIR)
      | _ => ((p, Node.file []) :: fs, none)

/-- Writing `data` through the handle `os.Create` returned for `p`: the file was
just truncated and the handle stands at offset 0, so its content becomes `data`.
The model has no failing write. -/
def write (fs : FS) (p : Path) (data : Bytes) : FS × Option Errno :=
  ((p, Node.file data) :: fs, none)

/-! ## Paths as the program builds them -/

/-- One step of lexical resolution of a relative path against a directory. -/
def resolveStep (cur : Path) (c : String) : Path :=
  if c = "" ∨ c = "." then cur
  else if c = ".." then cur.dropLast
  else cur ++ [c]

/-- The absolute path a relative path (its components) names in a process whose
working directory is `cwd`; `..` at the root stays at the root. -/
def resolve (cwd : Path) (rel : List String) : Path :=
  rel.foldl resolveStep cwd

/-- Split a string at every slash. -/
def splitSlash : List Char → List (List Char)
  | [] => [[]]
  | c :: cs =>
    if c = '/' then [] :: splitSlash cs
    else
      match splitSlash cs with
      | [] => [[c]]
      | x :: xs => (c :: x) :: xs

/-- The slash-separated components of a path string. -/
def splitPath (s : String) : List String :=
  (splitSlash s.data).map String.mk

/-- The loop of `filepath.Clean` on a relative path, `out` being the output so
far, last component first: empty and `.` components are dropped, `..` removes
the component before it unless there is none or it is `..` itself. -/
def cleanAux : List String → List String → List String
  | out, [] => out.reverse
  | out, c :: cs =>
    if c = "" ∨ c = "." then cleanAux out cs
    else if c = ".." then
      match out with
      | [] => cleanAux [".."] cs
      | o :: os => if o = ".." then cleanAux (".." :: o :: os) cs else cleanAux os cs
    else cleanAux (c :: out) cs

/-- The function `filepath.Clean` on the components of a relative path. -/
def clean (comps : List String) : List String :=
  cleanAux [] comps

/-- The constant `imagedbPath`, the string `../imagedb`. -/
def imagedbPath : List String := ["..", "imagedb"]

/-- The constant `layerdbPath`, the string `../layerdb`. -/
def layerdbPath : List String := ["..", "layerdb"]

/-- The call `filepath.Join(layerdbPath, layerDigest, name)`: the three strings
joined with slashes, then cleaned.  A digest is a hexadecimal string and so one
component. -/
def joinLayerPath (layerDigest : String) (name : String) : List String :=
  clean (layerdbPath ++ [layerDigest] ++ splitPath name)

/-! ## Collaborators -/

/-- A Go `error` value: an error number from a system call, an error of a
collaborator, or `fmt.Errorf("msg: %w", err)`. -/
inductive Error where
  | errno (e : Errno)
  | external (msg : String)
  | wrap (msg : String) (cause : Error)
  deriving DecidableEq, Repr

/-- The type `v1.Hash`. -/
structure Hash where
  Algorithm : String
  Hex : String
  deriving DecidableEq, Repr

/-- The type `v1.Descriptor`, reduced to the field the program reads. -/
structure Descriptor where
  Digest : Hash
  deriving DecidableEq, Repr

/-- The type `v1.Manifest`: its layers, and the rest of the document. -/
structure Manifest where
  Layers : List Descriptor
  rest : String
  deriving DecidableEq, Repr

/-- The type `v1.ConfigFile`, kept as a document. -/
structure ConfigFile where
  doc : String
  deriving DecidableEq, Repr

/-- The constant `tar.TypeReg`, the byte `'0'`. -/
def TypeReg : Nat := 48

/-- The constant `tar.TypeDir`, the byte `'5'`. -/
def TypeDir : Nat := 53

/-- One header returned by `tarReader.Next()`, with what reading its body gives:
`body` are the bytes `io.Copy` receives, and `bodyErr` is the error the read
ends with, if it does not end at the end of the member. -/
structure TarEntry where
  Name : String
  Typeflag : Nat
  body : Bytes
  bodyErr : Option Error
  deriving DecidableEq, Repr

/-- An archive stream as the loop sees it: the headers `Next` returns one after
the other, and the error with which `Next` ends in place of `io.EOF`, if any. -/
structure TarStream where
  entries : List TarEntry
  readErr : Option Error
  deriving DecidableEq, Repr

/-- The interface `v1.Layer`, reduced to `Uncompressed()`. -/
structure Layer where
  Uncompressed : Except Error TarStream

/-- The interface `v1.Image`: what each method the program calls returns. -/
structure Image where
  Digest : Except Error Hash
  Manifest : Except Error Manifest
  ConfigFile : Except Error ConfigFile
  LayerByDigest : Hash → Except Error Layer

/-- The type `name.Reference`, reduced to `Name()`. -/
structure Reference where
  Name : String
  deriving DecidableEq, Repr

/-- The surroundings of the process: its working directory, the registry client
and the JSON encoder (`json.MarshalIndent(v, "", "  ")`). -/
structure Env where
  cwd : Path
  parseReference : String → Except Error Reference
  remoteImage : Reference → Except Error Image
  marshalIndentConfig : ConfigFile → Except Error Bytes
  marshalIndentManifest : Manifest → Except Error Bytes

/-- What the process does that can be seen from outside: the lines it prints,
its filesystem calls, and its requests for a layer and for the content stream of
a layer.  The accessors `Digest`, `Manifest` and `ConfigFile` of the image
handle and the JSON encoder are not recorded. -/
inductive Event where
  | print (line : String)
  | printError (e : Error)
  | stat (p : Path)
  | mkdirAll (p : Path)
  | create (p : Path)
  | write (p : Path) (data : Bytes)
  | layerByDigest (hex : String)
  | uncompressed (hex : String)
  deriving DecidableEq, Repr

/-- The state of the world: the filesystem and the trace so far. -/
structure World where
  fs : FS
  trace : List Event
  deriving DecidableEq, Repr

/-- How a function that can end the process ends: it returns nil, it returns an
error, or it calls `os.Exit`. -/
inductive Outcome where
  | ok
  | err (e : Error)
  | exit (code : Nat)
  deriving DecidableEq, Repr

/-- The events that are calls changing the filesystem. -/
def Event.isFileCall : Event → Bool
  | Event.mkdirAll _ => true
  | Event.create _ => true
  | Event.write _ _ => true
  | _ => false

/-- Append an event to the trace. -/
def World.log (w : World) (e : Event) : World :=
  { w with trace := w.trace ++ [e] }

/-- The call `fmt.Println` of one line. -/
def println (w : World) (line : String) : World :=
  w.log (Event.print line)

/-- The call `os.Stat(path)` in a process with working directory `cwd`. -/
def osStat (cwd : Path) (w : World) (rel : List String) : World × Except Errno Node :=
  (w.log (Event.stat (resolve cwd rel)), stat w.fs (resolve cwd rel))

/-- The call `os.MkdirAll(path, 0755)`. -/
def osMkdirAll (cwd : Path) (w : World) (rel : List String) : World × Option Errno :=
  ({ fs := (mkdirAll w.fs (resolve cwd rel)).1,
     trace := w.trace ++ [Event.mkdirAll (resolve cwd rel)] },
   (mkdirAll w.fs (resolve cwd rel)).2)

/-- The call `os.Create(path)`. -/
def osCreate (cwd : Path) (w : World) (rel : List String) : World × Option Errno :=
  ({ fs := (create w.fs (resolve cwd rel)).1,
     trace := w.trace ++ [Event.create (resolve cwd rel)] },
   (create w.fs (resolve cwd rel)).2)

/-- The call `file.Write(data)` on the handle of `os.Create(path)`. -/
def fileWrite (cwd : Path) (w : World) (rel : List String) (data : Bytes) :
    World × Option Errno :=
  ({ fs := (write w.fs (resolve cwd rel) data).1,
     trace := w.trace ++ [Event.write (resolve cwd rel) data] },
   (write w.fs (resolve cwd rel) data).2)

/-- The call `io.Copy(outputFile, tarReader)`: the bytes read from the member
are written to the file; the copy fails when the read fails or the write does. -/
def ioCopy (cwd : Path) (w : World) (rel : List String) (e : TarEntry) :
    World × Option Error :=
  match fileWrite cwd w rel e.body with
  | (w1, some en) => (w1, some (Error.errno en))
  | (w1, none) => (w1, e.bodyErr)


/-! ## The program -/

/-- The function `os.IsNotExist` on the error of a system call: true for
`ENOENT` only, false for nil. -/
def isNotExist : Option Errno → Bool
  | some Errno.ENOENT => true
  | _ => false

/-- The `err` of `_, err := os.Stat(..)`. -/
def errOf : Except Errno Node → Option Errno
  | Except.ok _ => none
  | Except.error e => some e

/-- The absolute path of the object an archive entry named `name` is written to:
`filepath.Join(layerdbPath, layerDigest, name)`, resolved by the kernel. -/
def entryPath (cwd : Path) (layerDigest : String) (name : String) : Path :=
  resolve cwd (joinLayerPath layerDigest name)

/-- The absolute path of the directory of a layer, `layerdbPath + "/" + layerDigest`. -/
def layerDir (cwd : Path) (layerDigest : String) : Path :=
  resolve cwd (layerdbPath ++ [layerDigest])

/-- The absolute path of the directory of an image, `imagedbPath + "/" + digest.Hex`. -/
def imageDir (cwd : Path) (hex : String) : Path :=
  resolve cwd (imagedbPath ++ [hex])

/-- The body of the `for` loop of `storeInLayerdb` once `tarReader.Next()` has
returned `header` (pull.go, lines 141 to 157): a directory is made with its
missing ancestors, a regular file is created and filled, any other type is
passed over. -/
def unpackEntry (cwd : Path) (layerDigest : String) (w : World) (header : TarEntry) :
    World × Option Error :=
  if header.Typeflag = TypeDir then
    match osMkdirAll cwd w (joinLayerPath layerDigest header.Name) with
    | (w1, some e) => (w1, some (Error.wrap "error creating directory" (Error.errno e)))
    | (w1, none) => (w1, none)
  else if header.Typeflag = TypeReg then
    match osCreate cwd w (joinLayerPath layerDigest header.Name) with
    | (w1, some e) => (w1, some (Error.wrap "error creating file" (Error.errno e)))
    | (w1, none) =>
      match ioCopy cwd w1 (joinLayerPath layerDigest header.Name) header with
      | (w2, some e) => (w2, some (Error.wrap "error writing file" e))
      | (w2, none) => (w2, none)
  else (w, none)

/-- The `for` loop of `storeInLayerdb` (pull.go, lines 133 to 158) over the
headers still to come; `readErr` is how `tarReader.Next()` ends after them
(`none` for `io.EOF`).  The loop stops at the first error. -/
def unpackLoop (cwd : Path) (layerDigest : String) (readErr : Option Error) :
    World → List TarEntry → World × Option Error
  | w, [] =>
    match readErr with
    | none => (w, none)
    | some e => (w, some (Error.wrap "error reading tar header" e))
  | w, header :: rest =>
    match unpackEntry cwd layerDigest w header with
    | (w1, some e) => (w1, some e)
    | (w1, none) => unpackLoop cwd layerDigest readErr w1 rest

/-- The block of `storeInLayerdb` run when the layer directory does not exist
(pull.go, lines 119 to 159). -/
def extractLayer (env : Env) (layer : Descriptor) (img : Image) (w : World) :
    World × Option Error :=
  match osMkdirAll env.cwd w (layerdbPath ++ [layer.Digest.Hex]) with
  | (w1, some e) => (w1, some (Error.wrap "error creating layer directory" (Error.errno e)))
  | (w1, none) =>
    match img.LayerByDigest layer.Digest with
    | Except.error e =>
      (w1.log (Event.layerByDigest layer.Digest.Hex),
        some (Error.wrap "error getting layer reader" e))
    | Except.ok l =>
      match l.Uncompressed with
      | Except.error e =>
        ((w1.log (Event.layerByDigest layer.Digest.Hex)).log
            (Event.uncompressed layer.Digest.Hex),
          some (Error.wrap "error getting layer reader" e))
      | Except.ok layerReader =>
        match unpackLoop env.cwd layer.Digest.Hex layerReader.readErr
            ((w1.log (Event.layerByDigest layer.Digest.Hex)).log
              (Event.uncompressed layer.Digest.Hex)) layerReader.entries with
        | (w2, some e) => (w2, some e)
        | (w2, none) => (println w2 "Layer pulled", none)

/-- The function `storeInLayerdb` (pull.go, line 111). -/
def storeInLayerdb (env : Env) (layer : Descriptor) (img : Image) (w : World) :
    World × Option Error :=
  let w0 := println w ("Pulling layer:  " ++ layer.Digest.Hex)
  let r := osStat env.cwd w0 (layerdbPath ++ [layer.Digest.Hex])
  let err := errOf r.2
  if h : err.isSome = true ∧ isNotExist err = false then
    (r.1, some (Error.wrap "error checking layer cache" (Error.errno (err.get h.1))))
  else if isNotExist err = true then
    extractLayer env layer img r.1
  else
    (println r.1 "Layer found in cache", none)

/-- The function `storeInImagedb` (pull.go, line 56). -/
def storeInImagedb (env : Env) (img : Image) (manifest : Manifest) (w : World) :
    World × Outcome :=
  match img.Digest with
  | Except.error e => (w, Outcome.err (Error.wrap "error getting digest" e))
  | Except.ok digest =>
  match osMkdirAll env.cwd w imagedbPath with
  | (w1, some e) =>
    (w1, Outcome.err (Error.wrap "error creating image directory" (Error.errno e)))
  | (w1, none) =>
  match osMkdirAll env.cwd w1 layerdbPath with
  | (w2, some e) =>
    (w2, Outcome.err (Error.wrap "error creating layer directory" (Error.errno e)))
  | (w2, none) =>
  match osStat env.cwd w2 (imagedbPath ++ [digest.Hex]) with
  | (w3, Except.ok _) => (println w3 "Image found in cache", Outcome.exit 0)
  | (w3, Except.error _) =>
  match osMkdirAll env.cwd w3 (imagedbPath ++ [digest.Hex]) with
  | (w4, some e) =>
    (w4, Outcome.err (Error.wrap "error creating image directory" (Error.errno e)))
  | (w4, none) =>
  match osCreate env.cwd w4 (imagedbPath ++ [digest.Hex, "config.json"]) with
  | (w5, some e) =>
    (w5, Outcome.err (Error.wrap "error creating config file" (Error.errno e)))
  | (w5, none) =>
  match img.ConfigFile with
  | Except.error e => (w5, Outcome.err (Error.wrap "error getting config" e))
  | Except.ok config =>
  match env.marshalIndentConfig config with
  | Except.error e => (w5, Outcome.err (Error.wrap "error indenting config" e))
  | Except.ok indentConfig =>
  match fileWrite env.cwd w5 (imagedbPath ++ [digest.Hex, "config.json"]) indentConfig with
  | (w6, some e) => (w6, Outcome.err (Error.wrap "error writing config" (Error.errno e)))
  | (w6, none) =>
  match osCreate env.cwd w6 (imagedbPath ++ [digest.Hex, "manifest.json"]) with
  | (w7, some e) =>
    (w7, Outcome.err (Error.wrap "error creating manifest file" (Error.errno e)))
  | (w7, none) =>
  match env.marshalIndentManifest manifest with
  | Except.error e => (w7, Outcome.err (Error.wrap "error indenting manifest" e))
  | Except.ok indentManifest =>
  match fileWrite env.cwd w7 (imagedbPath ++ [digest.Hex, "manifest.json"]) indentManifest with
  | (w8, some e) => (w8, Outcome.err (Error.wrap "error writing manifest" (Error.errno e)))
  | (w8, none) => (w8, Outcome.ok)

/-- The loop `for _, layer := range manifest.Layers` of the pull action. -/
def storeLayers (env : Env) (img : Image) : World → List Descriptor → World × Outcome
  | w, [] => (w, Outcome.ok)
  | w, layer :: rest =>
    match storeInLayerdb env layer img w with
    | (w1, some e) => (w1, Outcome.err (Error.wrap "error storing layer in db" e))
    | (w1, none) => storeLayers env img w1 rest

/-- The `Action` of `PullCommand` (pull.go, line 27), `args` being the
positional arguments of the subcommand (`cmd.Args()`). -/
def PullCommand.Action (env : Env) (w : World) (args : List String) : World × Outcome :=
  match env.parseReference (args.getD 0 "") with
  | Except.error e => (w, Outcome.err (Error.wrap "error parsing image reference" e))
  | Except.ok imageRef =>
    let w0 := println w ("Pulling image:  " ++ imageRef.Name)
    match env.remoteImage imageRef with
    | Except.error e => (w0, Outcome.err (Error.wrap "error pulling image" e))
    | Except.ok img =>
      match img.Manifest with
      | Except.error e => (w0, Outcome.err (Error.wrap "error getting manifest" e))
      | Except.ok manifest =>
        match storeInImagedb env img manifest w0 with
        | (w1, Outcome.err e) => (w1, Outcome.err (Error.wrap "error storing image in db" e))
        | (w1, Outcome.exit code) => (w1, Outcome.exit code)
        | (w1, Outcome.ok) => storeLayers env img w1 manifest.Layers

/-- The function `main` (main.go, line 12) when the command line selects the
`pull` subcommand with the positional arguments `args`: the exit status of the
process and the world it leaves.  `cmd.Run` hands back the error of the action;
`main` prints it and returns, and a `main` that returns ends the process with
status 0. -/
def main (env : Env) (w : World) (args : List String) : World × Nat :=
  match PullCommand.Action env w args with
  | (w1, Outcome.exit code) => (w1, code)
  | (w1, Outcome.err e) => (w1.log (Event.printError e), 0)
  | (w1, Outcome.ok) => (w1, 0)

/-! ## Vocabulary of the statements -/

/-- The second filesystem keeps every directory of the first as a directory and
every regular file of the first as a regular file. -/
def Ext (fs fs1 : FS) : Prop :=
  ∀ q, (lookup fs q = some Node.dir → lookup fs1 q = some Node.dir) ∧
    (∀ b, lookup fs q = some (Node.file b) → ∃ b1, lookup fs1 q = some (Node.file b1))

/-- A string that is one ordinary path component, as every hexadecimal digest
is: not empty, not `.` and not `..`. -/
def IsName (s : String) : Prop := s ≠ "" ∧ s ≠ "." ∧ s ≠ ".."

/-- The world after the first two statements of `storeInLayerdb`, the line
`Pulling layer:` and the `Stat` of the layer directory. -/
def afterCheck (env : Env) (layer : Descriptor) (w : World) : World :=
  { fs := w.fs,
    trace := w.trace ++
      [Event.print ("Pulling layer:  " ++ layer.Digest.Hex),
       Event.stat (layerDir env.cwd layer.Digest.Hex)] }

/-- The world in which `storeInLayerdb` enters its `for` loop when the layer
directory was missing: the directory has been made and the stream obtained. -/
def loopStart (env : Env) (layer : Descriptor) (w : World) : World :=
  { fs := (mkdirAll w.fs (layerDir env.cwd layer.Digest.Hex)).1,
    trace := w.trace ++
      [Event.print ("Pulling layer:  " ++ layer.Digest.Hex),
       Event.stat (layerDir env.cwd layer.Digest.Hex),
       Event.mkdirAll (layerDir env.cwd layer.Digest.Hex),
       Event.layerByDigest layer.Digest.Hex,
       Event.uncompressed layer.Digest.Hex] }

/-- The filesystem after `storeInImagedb` has made the two store roots. -/
def rootsMade (cwd : Path) (fs : FS) : FS :=
  (mkdirAll (mkdirAll fs (resolve cwd imagedbPath)).1 (resolve cwd layerdbPath)).1

/-- The filesystem after `storeInImagedb` has also made the image directory. -/
def imageDirMade (cwd : Path) (hex : String) (fs : FS) : FS :=
  (mkdirAll (rootsMade cwd fs) (imageDir cwd hex)).1

/-- The absolute path of a file of an image directory. -/
def imageFile (cwd : Path) (hex : String) (name : String) : Path :=
  resolve cwd (imagedbPath ++ [hex, name])

/-- Every recorded object has a directory as its parent. -/
def WellFormed (fs : FS) : Prop :=
  ∀ e ∈ fs, lookup fs e.1.dropLast = some Node.dir

instance (fs : FS) : Decidable (WellFormed fs) := by
  unfold WellFormed
  infer_instance

/-- The events a call added to the trace. -/
def newEvents (w w1 : World) : List Event :=
  w1.trace.drop w.trace.length

/-- The body of the last regular-file entry of `entries` that is written to the
path `p`, if there is one. -/
def lastRegBody (cwd : Path) (layerDigest : String) : List TarEntry → Path → Option Bytes
  | [], _ => none
  | e :: rest, p =>
    match lastRegBody cwd layerDigest rest p with
    | some b => some b
    | none =>
      if e.Typeflag = TypeReg ∧ entryPath cwd layerDigest e.Name = p then some e.body
      else none

/-! ## Concrete inputs -/

/-- A working directory, `/home/u/work`; the stores then are `/home/u/imagedb`
and `/home/u/layerdb`. -/
def cwdEx : Path := ["home", "u", "work"]

/-- A filesystem where only the working directory `/home/u/work` exists. -/
def fsWork : FS :=
  [(["home", "u", "work"], Node.dir),
   (["home", "u"], Node.dir),
   (["home"], Node.dir)]

/-- A world where only the working directory exists and nothing has been printed
or called yet: both stores are absent. -/
def freshWorld : World := { fs := fsWork, trace := [] }

/-- The bytes of `hello`. -/
def helloBytes : Bytes := [104, 101, 108, 108, 111]

/-- The digest of the layer called `abc` in the comments below. -/
def hexAbc : String := "2c26b46b68ffc68ff99b453c1d30413413422d706483bfa0f98a5e886266e7ae"

/-- The digest of the layer called `mmm` in the comments below. -/
def hexMmm : String := "fcde2b2edba56bf408601fb721fe9b5c338d10ee429ea04fae5511b68fbf8fb9"

/-- The digest of the image called `dd` in the comments below. -/
def hexDd : String := "baa5a0964d3320fbc0c6a922140453c8513ea24ab8fd0577034804a967248096"

/-- The digest of the image called `aa` in the comments below. -/
def hexAa : String := "21f58d27f827d295ffcd860c65045685e3baf1ad4506caa0140113b316647534"

/-- The digest of the image called `bb` in the comments below. -/
def hexBb : String := "053057fda9a935f2d4fa8c7bc62a411a26926e00b491c07c1b2ec1909078a0a2"

/-- A layer descriptor with digest `abc`. -/
def layerAbc : Descriptor := { Digest := { Algorithm := "sha256", Hex := hexAbc } }

/-- An image handle that serves the stream `s` for every layer. -/
def imageOf (s : TarStream) : Image :=
  { Digest := Except.ok { Algorithm := "sha256", Hex := hexDd },
    Manifest := Except.ok { Layers := [layerAbc], rest := "" },
    ConfigFile := Except.ok { doc := "cfg" },
    LayerByDigest := fun _ => Except.ok { Uncompressed := Except.ok s } }

/-- Surroundings with working directory `cwdEx` where every non-empty reference
resolves to the image `img`. -/
def envOf (img : Image) : Env :=
  { cwd := cwdEx,
    parseReference := fun s =>
      if s = "" then Except.error (Error.external "could not parse reference")
      else Except.ok { Name := s },
    remoteImage := fun _ => Except.ok img,
    marshalIndentConfig := fun _ => Except.ok [1],
    marshalIndentManifest := fun _ => Except.ok [2] }

/-- The archive of the completeness example: the directory `a/` and the file
`a/b.txt` holding `hello`. -/
def streamAB : TarStream :=
  { entries :=
      [{ Name := "a/", Typeflag := TypeDir, body := [], bodyErr := none },
       { Name := "a/b.txt", Typeflag := TypeReg, body := helloBytes, bodyErr := none }],
    readErr := none }

/-- A filesystem where `/home/u/work` and `/home/u/etc/passwd` exist. -/
def fsEtc : FS :=
  [(["home", "u", "etc", "passwd"], Node.file [114, 111, 111, 116]),
   (["home", "u", "etc"], Node.dir),
   (["home", "u", "work"], Node.dir),
   (["home", "u"], Node.dir),
   (["home"], Node.dir)]

/-- An archive with one regular file named `../../etc/passwd`. -/
def streamEscape : TarStream :=
  { entries :=
      [{ Name := "../../etc/passwd", Typeflag := TypeReg, body := [120], bodyErr := none }],
    readErr := none }

/-- An archive with absolute names: the directory `/etc` and the regular file
`/etc/passwd`. -/
def streamAbsolute : TarStream :=
  { entries :=
      [{ Name := "/etc", Typeflag := TypeDir, body := [], bodyErr := none },
       { Name := "/etc/passwd", Typeflag := TypeReg, body := [120], bodyErr := none }],
    readErr := none }

/-- A filesystem where the layer directory of `abc` exists and holds a file. -/
def fsCached : FS :=
  [(["home", "u", "layerdb", hexAbc, "junk"], Node.file [7]),
   (["home", "u", "layerdb", hexAbc], Node.dir),
   (["home", "u", "layerdb"], Node.dir),
   (["home", "u", "work"], Node.dir),
   (["home", "u"], Node.dir),
   (["home"], Node.dir)]

/-- A filesystem where `/home/u/layerdb` is a regular file. -/
def fsBlocked : FS :=
  [(["home", "u", "layerdb"], Node.file []),
   (["home", "u", "work"], Node.dir),
   (["home", "u"], Node.dir),
   (["home"], Node.dir)]

/-- An archive that writes the file `a` and then breaks while the body of a
second member named `a` is read. -/
def streamTwice : TarStream :=
  { entries :=
      [{ Name := "a", Typeflag := TypeReg, body := helloBytes, bodyErr := none },
       { Name := "a", Typeflag := TypeReg, body := [],
         bodyErr := some (Error.external "unexpected EOF") },
       { Name := "b", Typeflag := TypeReg, body := [1], bodyErr := none }],
    readErr := none }

/-- A layer descriptor with digest `mmm`. -/
def layerMmm : Descriptor := { Digest := { Algorithm := "sha256", Hex := hexMmm } }

/-- An archive whose only entry is the directory `../abc`, that is `..` followed by
the digest of the layer `abc`. -/
def streamSneak : TarStream :=
  { entries := [{ Name := "../2c26b46b68ffc68ff99b453c1d30413413422d706483bfa0f98a5e886266e7ae", Typeflag := TypeDir, body := [], bodyErr := none }],
    readErr := none }

/-- An image with digest `aa` and the layers `mmm` and `abc`; the archive of
`mmm` is `streamSneak`, that of `abc` is `streamAB`. -/
def imageSneak : Image :=
  { Digest := Except.ok { Algorithm := "sha256", Hex := hexAa },
    Manifest := Except.ok { Layers := [layerMmm, layerAbc], rest := "" },
    ConfigFile := Except.ok { doc := "cfg" },
    LayerByDigest := fun h =>
      if h.Hex = hexMmm then Except.ok { Uncompressed := Except.ok streamSneak }
      else Except.ok { Uncompressed := Except.ok streamAB } }

/-- An image with digest `aa` and the layers `mmm` and `abc`, both with the
archive `streamAB`. -/
def imageFirst : Image :=
  { Digest := Except.ok { Algorithm := "sha256", Hex := hexAa },
    Manifest := Except.ok { Layers := [layerMmm, layerAbc], rest := "" },
    ConfigFile := Except.ok { doc := "cfg" },
    LayerByDigest := fun _ => Except.ok { Uncompressed := Except.ok streamAB } }

/-- An image with digest `bb` and the single layer `abc`. -/
def imageSecond : Image :=
  { Digest := Except.ok { Algorithm := "sha256", Hex := hexBb },
    Manifest := Except.ok { Layers := [layerAbc], rest := "" },
    ConfigFile := Except.ok { doc := "cfg" },
    LayerByDigest := fun _ => Except.ok { Uncompressed := Except.ok streamAB } }

/-- Surroundings where the reference `first` resolves to `img` and every other
reference to `imageSecond`. -/
def envTwo (img : Image) : Env :=
  { cwd := cwdEx,
    parseReference := fun s => Except.ok { Name := s },
    remoteImage := fun r => if r.Name = "first" then Except.ok img else Except.ok imageSecond,
    marshalIndentConfig := fun _ => Except.ok [1],
    marshalIndentManifest := fun _ => Except.ok [2] }

/-! ## Lookups and path resolution by the kernel -/

theorem lookup_nil (fs : FS) : lookup fs [] = some Node.dir := by
  simp [lookup]

theorem lookup_cons (q : Path) (n : Node) (fs : FS) (p : Path) :
    lookup ((q, n) :: fs) p =
      if p = [] then some Node.dir else if q = p then some n else lookup fs p := by
  unfold lookup
  by_cases h : p = [] <;> simp [h, find]

theorem walk_snoc (fs : FS) (cs : List String) :
    ∀ (pre : Path) (cur : Node) (c : String),
      walk fs pre cur (cs ++ [c]) =
        match walk fs pre cur cs with
        | Except.error e => Except.error e
        | Except.ok (Node.file _) => Except.error Errno.ENOTDIR
        | Except.ok Node.dir =>
          match lookup fs (pre ++ cs ++ [c]) with
          | none => Except.error Errno.ENOENT
          | some n => Except.ok n := by
  induction cs with
  | nil =>
    intro pre cur c
    cases cur with
    | dir =>
      cases h : lookup fs (pre ++ [c]) <;> simp [walk, h]
    | file b => simp [walk]
  | cons d cs ih =>
    intro pre cur c
    cases cur with
    | dir =>
      cases h : lookup fs (pre ++ [d]) with
      | none => simp [walk, h]
      | some n =>
        have ih1 := ih (pre ++ [d]) n c
        simp only [List.cons_append, walk, h]
        simp only [List.append_assoc, List.singleton_append] at ih1 ⊢
        exact ih1
    | file b => simp [walk]

theorem stat_nil (fs : FS) : stat fs [] = Except.ok Node.dir := by
  simp [stat, walk]

theorem stat_snoc (fs : FS) (p : Path) (c : String) :
    stat fs (p ++ [c]) =
      match stat fs p with
      | Except.error e => Except.error e
      | Except.ok (Node.file _) => Except.error Errno.ENOTDIR
      | Except.ok Node.dir =>
        match lookup fs (p ++ [c]) with
        | none => Except.error Errno.ENOENT
        | some n => Except.ok n := by
  unfold stat
  rw [walk_snoc]
  simp

theorem stat_snoc_ok_iff (fs : FS) (p : Path) (c : String) (n : Node) :
    stat fs (p ++ [c]) = Except.ok n ↔
      stat fs p = Except.ok Node.dir ∧ lookup fs (p ++ [c]) = some n := by
  rw [stat_snoc]
  cases h : stat fs p with
  | error e => simp
  | ok m =>
    cases m with
    | file b => simp
    | dir =>
      cases h2 : lookup fs (p ++ [c]) <;> simp

theorem stat_ok_lookup (fs : FS) (p : Path) (n : Node) (h : stat fs p = Except.ok n) :
    lookup fs p = some n := by
  rcases List.eq_nil_or_concat p with hp | ⟨q, c, hp⟩
  · subst hp
    rw [stat_nil] at h
    cases h
    exact lookup_nil fs
  · rw [List.concat_eq_append] at hp
    subst hp
    exact ((stat_snoc_ok_iff fs q c n).1 h).2

theorem stat_error_cases (fs : FS) (p : Path) (e : Errno) (h : stat fs p = Except.error e) :
    e = Errno.ENOENT ∨ e = Errno.ENOTDIR := by
  induction p using List.reverseRecOn generalizing e with
  | nil => rw [stat_nil] at h; cases h
  | append_singleton q c ih =>
    rw [stat_snoc] at h
    match hq : stat fs q with
    | Except.error e1 =>
      rw [hq] at h
      simp only at h
      cases h
      exact ih _ hq
    | Except.ok (Node.file b) =>
      rw [hq] at h
      simp only at h
      cases h
      exact Or.inr rfl
    | Except.ok Node.dir =>
      rw [hq] at h
      simp only at h
      cases h2 : lookup fs (q ++ [c]) with
      | none => rw [h2] at h; cases h; exact Or.inl rfl
      | some n => rw [h2] at h; cases h

theorem Ext.refl (fs : FS) : Ext fs fs := fun _ => ⟨id, fun b h => ⟨b, h⟩⟩

theorem Ext.trans {a b c : FS} (h1 : Ext a b) (h2 : Ext b c) : Ext a c := by
  intro q
  refine ⟨fun h => (h2 q).1 ((h1 q).1 h), fun x h => ?_⟩
  obtain ⟨y, hy⟩ := (h1 q).2 x h
  exact (h2 q).2 y hy

theorem stat_dir_of_ext {fs fs1 : FS} (hext : Ext fs fs1) (p : Path)
    (h : stat fs p = Except.ok Node.dir) : stat fs1 p = Except.ok Node.dir := by
  induction p using List.reverseRecOn with
  | nil => exact stat_nil fs1
  | append_singleton q c ih =>
    rw [stat_snoc_ok_iff] at h ⊢
    exact ⟨ih h.1, (hext _).1 h.2⟩

/-! ## The system calls -/

theorem mkdir_snoc (fs : FS) (q : Path) (c : String)
    (h : stat fs q = Except.ok Node.dir) :
    mkdir fs (q ++ [c]) =
      match lookup fs (q ++ [c]) with
      | some _ => (fs, some Errno.EEXIST)
      | none => ((q ++ [c], Node.dir) :: fs, none) := by
  simp [mkdir, h]

theorem mkdirAllRev_spec (r : List String) :
    ∀ fs : FS,
      (∀ q n, lookup fs q = some n → lookup (mkdirAllRev fs r).1 q = some n) ∧
      (∀ q, lookup (mkdirAllRev fs r).1 q ≠ lookup fs q →
        q <+: r.reverse ∧ lookup (mkdirAllRev fs r).1 q = some Node.dir) ∧
      ((mkdirAllRev fs r).2 = none → stat (mkdirAllRev fs r).1 r.reverse = Except.ok Node.dir) := by
  induction r with
  | nil =>
    intro fs
    simp [mkdirAllRev, stat_nil]
  | cons c par ih =>
    intro fs
    have hp : (c :: par).reverse = par.reverse ++ [c] := by simp
    match hs : stat fs (par.reverse ++ [c]) with
    | Except.ok Node.dir =>
      simp [mkdirAllRev, hs]
    | Except.ok (Node.file b) =>
      simp [mkdirAllRev, hs]
    | Except.error e =>
      obtain ⟨ih1, ih2, ih3⟩ := ih fs
      match hr : mkdirAllRev fs par with
      | (fs1, some e1) =>
        rw [hr] at ih1 ih2
        simp only [mkdirAllRev, hp, hs, hr]
        refine ⟨ih1, fun q hq => ?_, by simp⟩
        obtain ⟨h1, h2⟩ := ih2 q hq
        exact ⟨h1.trans (List.prefix_append _ _), h2⟩
      | (fs1, none) =>
        rw [hr] at ih1 ih2 ih3
        have hd : stat fs1 par.reverse = Except.ok Node.dir := ih3 rfl
        simp only [mkdirAllRev, hp, hs, hr, mkdir_snoc fs1 _ c hd]
        match hl : lookup fs1 (par.reverse ++ [c]) with
        | none =>
          simp only
          refine ⟨fun q n hq => ?_, fun q hq => ?_, fun _ => ?_⟩
          · have h1 := ih1 q n hq
            rw [lookup_cons]
            by_cases hq0 : q = []
            · subst hq0; rw [lookup_nil] at hq; simp [hq]
            · by_cases hqp : par.reverse ++ [c] = q
              · subst hqp; rw [hl] at h1; cases h1
              · simp [hq0, hqp, h1]
          · rw [lookup_cons] at hq ⊢
            by_cases hq0 : q = []
            · subst hq0; simp [lookup_nil] at hq
            · by_cases hqp : par.reverse ++ [c] = q
              · subst hqp; simp [hq0]
              · simp only [hq0, hqp, if_false] at hq ⊢
                obtain ⟨h1, h2⟩ := ih2 q hq
                exact ⟨h1.trans (List.prefix_append _ _), h2⟩
          · rw [stat_snoc_ok_iff]
            refine ⟨?_, by simp [lookup_cons]⟩
            refine stat_dir_of_ext ?_ _ hd
            intro q
            rw [lookup_cons]
            by_cases hq0 : q = []
            · subst hq0; simp [lookup_nil]
            · by_cases hqp : par.reverse ++ [c] = q
              · subst hqp; simp [hl]
              · simp only [hq0, hqp, if_false]; exact ⟨id, fun b h => ⟨b, h⟩⟩
        | some n =>
          simp only
          have hst : stat fs1 (par.reverse ++ [c]) = Except.ok n :=
            (stat_snoc_ok_iff fs1 _ c n).2 ⟨hd, hl⟩
          rw [hst]
          have hfr : ∀ q, lookup fs1 q ≠ lookup fs q →
              q <+: par.reverse ++ [c] ∧ lookup fs1 q = some Node.dir := by
            intro q hq
            obtain ⟨h1, h2⟩ := ih2 q hq
            exact ⟨h1.trans (List.prefix_append _ _), h2⟩
          cases n with
          | dir => exact ⟨ih1, hfr, fun _ => hst⟩
          | file b => exact ⟨ih1, hfr, by simp⟩

theorem mkdirAll_mono (fs : FS) (p q : Path) (n : Node) (h : lookup fs q = some n) :
    lookup (mkdirAll fs p).1 q = some n :=
  (mkdirAllRev_spec p.reverse fs).1 q n h

theorem mkdirAll_frame (fs : FS) (p q : Path)
    (h : lookup (mkdirAll fs p).1 q ≠ lookup fs q) :
    q <+: p ∧ lookup (mkdirAll fs p).1 q = some Node.dir := by
  have := (mkdirAllRev_spec p.reverse fs).2.1 q h
  simpa using this

theorem mkdirAll_stat (fs : FS) (p : Path) (h : (mkdirAll fs p).2 = none) :
    stat (mkdirAll fs p).1 p = Except.ok Node.dir := by
  have := (mkdirAllRev_spec p.reverse fs).2.2 h
  simpa using this

theorem mkdirAll_of_dir (fs : FS) (p : Path) (h : stat fs p = Except.ok Node.dir) :
    mkdirAll fs p = (fs, none) := by
  unfold mkdirAll
  cases hr : p.reverse with
  | nil => rfl
  | cons c par =>
    have : (c :: par).reverse = p := by rw [← hr]; simp
    simp only [mkdirAllRev, this, h]

theorem mkdirAll_ext (fs : FS) (p : Path) : Ext fs (mkdirAll fs p).1 := by
  intro q
  exact ⟨fun h => mkdirAll_mono fs p q _ h, fun b h => ⟨b, mkdirAll_mono fs p q _ h⟩⟩

theorem create_cases (fs : FS) (p : Path) :
    ((create fs p).2 = none ∧ (create fs p).1 = (p, Node.file []) :: fs ∧ p ≠ [] ∧
        stat fs p.dropLast = Except.ok Node.dir ∧ lookup fs p ≠ some Node.dir) ∨
      ((create fs p).2 ≠ none ∧ (create fs p).1 = fs) := by
  unfold create
  by_cases hp : p = []
  · simp [hp]
  · simp only [hp, if_false]
    match hs : stat fs p.dropLast with
    | Except.error e => simp
    | Except.ok (Node.file b) => simp
    | Except.ok Node.dir =>
      match hl : lookup fs p with
      | some Node.dir => simp
      | some (Node.file b) => simp [hp]
      | none => simp [hp]

theorem ext_cons_file (fs : FS) (p : Path) (data : Bytes)
    (h : lookup fs p ≠ some Node.dir) : Ext fs ((p, Node.file data) :: fs) := by
  intro q
  rw [lookup_cons]
  by_cases hq0 : q = []
  · subst hq0; simp [lookup_nil]
  · by_cases hqp : p = q
    · subst hqp
      simp only [hq0, if_false, if_true]
      exact ⟨fun h1 => absurd h1 h, fun b _ => ⟨data, rfl⟩⟩
    · simp only [hq0, hqp, if_false]
      exact ⟨id, fun b h => ⟨b, h⟩⟩

theorem create_ext (fs : FS) (p : Path) : Ext fs (create fs p).1 := by
  rcases create_cases fs p with ⟨_, h2, _, _, h5⟩ | ⟨_, h2⟩
  · rw [h2]; exact ext_cons_file fs p [] h5
  · rw [h2]; exact Ext.refl fs

/-! ## Paths -/

theorem resolve_append (base : Path) (a b : List String) :
    resolve base (a ++ b) = resolve (resolve base a) b := by
  simp [resolve, List.foldl_append]

theorem cleanAux_cons (out : List String) (c : String) (cs : List String) :
    cleanAux out (c :: cs) =
      if c = "" ∨ c = "." then cleanAux out cs
      else if c = ".." then
        match out with
        | [] => cleanAux [".."] cs
        | o :: os => if o = ".." then cleanAux (".." :: o :: os) cs else cleanAux os cs
      else cleanAux (c :: out) cs := rfl

theorem resolve_cleanAux (base : Path) (cs : List String) :
    ∀ out : List String, (∀ x ∈ out, x ≠ "" ∧ x ≠ ".") →
      resolve base (cleanAux out cs) = resolve (resolve base out.reverse) cs := by
  induction cs with
  | nil => intro out _; simp [cleanAux, resolve]
  | cons c cs ih =>
    intro out hout
    by_cases h1 : c = "" ∨ c = "."
    · rw [cleanAux_cons, if_pos h1, ih out hout]
      simp [resolve, resolveStep, h1]
    · by_cases h2 : c = ".."
      · subst h2
        cases out with
        | nil =>
          rw [cleanAux_cons, if_neg (by decide), if_pos rfl]
          simp only
          rw [ih [".."] (by simp)]
          simp [resolve, resolveStep]
        | cons o os =>
          by_cases h3 : o = ".."
          · subst h3
            rw [cleanAux_cons, if_neg (by decide), if_pos rfl]
            simp only [if_true]
            rw [ih _ (by
              intro x hx
              rcases List.mem_cons.1 hx with rfl | hx
              · decide
              · exact hout x hx)]
            simp [resolve, resolveStep, List.foldl_append]
          · rw [cleanAux_cons, if_neg (by decide), if_pos rfl]
            simp only
            rw [if_neg h3, ih os (fun x hx =>
              hout x (List.mem_cons_of_mem _ hx))]
            have ho := hout o (List.mem_cons_self _ _)
            simp [resolve, resolveStep, List.foldl_append, ho.1, ho.2, h3]
      · rw [cleanAux_cons, if_neg h1, if_neg h2, ih (c :: out) (by
          intro x hx
          rcases List.mem_cons.1 hx with rfl | hx
          · exact ⟨fun h => h1 (Or.inl h), fun h => h1 (Or.inr h)⟩
          · exact hout x hx)]
        simp [resolve, List.foldl_append]

theorem resolve_clean (base : Path) (cs : List String) :
    resolve base (clean cs) = resolve base cs := by
  unfold clean
  rw [resolve_cleanAux base cs [] (by simp)]
  simp [resolve]

theorem entryPath_eq (cwd : Path) (hex name : String) :
    entryPath cwd hex name = resolve (layerDir cwd hex) (splitPath name) := by
  unfold entryPath joinLayerPath layerDir
  rw [resolve_clean, resolve_append]

theorem resolve_no_dotdot (cs : List String) :
    ∀ base : Path, ".." ∉ cs → base <+: resolve base cs := by
  induction cs with
  | nil => intro base _; simp [resolve]
  | cons c cs ih =>
    intro base h
    have hc : c ≠ ".." := fun e => h (by simp [e])
    have hcs : ".." ∉ cs := fun e => h (List.mem_cons_of_mem _ e)
    have : resolve base (c :: cs) = resolve (resolveStep base c) cs := by
      simp [resolve]
    rw [this]
    refine List.IsPrefix.trans ?_ (ih _ hcs)
    unfold resolveStep
    by_cases h1 : c = "" ∨ c = "."
    · simp [h1]
    · simp [h1, hc]

theorem layerDir_of_name (cwd : Path) (hex : String) (h : IsName hex) :
    layerDir cwd hex = cwd.dropLast ++ ["layerdb", hex] := by
  obtain ⟨h1, h2, h3⟩ := h
  simp [layerDir, layerdbPath, resolve, resolveStep, h1, h2, h3]

theorem imageDir_of_name (cwd : Path) (hex : String) (h : IsName hex) :
    imageDir cwd hex = cwd.dropLast ++ ["imagedb", hex] := by
  obtain ⟨h1, h2, h3⟩ := h
  simp [imageDir, imagedbPath, resolve, resolveStep, h1, h2, h3]

/-! ## One archive entry -/

theorem stat_cons_file (fs : FS) (p : Path) (data : Bytes) (hp : p ≠ [])
    (hd : stat fs p.dropLast = Except.ok Node.dir) (hl : lookup fs p ≠ some Node.dir) :
    stat ((p, Node.file data) :: fs) p = Except.ok (Node.file data) := by
  have hext := ext_cons_file fs p data hl
  have h1 := stat_dir_of_ext hext _ hd
  have hsplit := List.dropLast_append_getLast hp
  rw [← hsplit, stat_snoc_ok_iff, hsplit]
  exact ⟨h1, by simp [lookup_cons, hp]⟩

theorem unpackEntry_dir (cwd : Path) (hex : String) (w : World) (e : TarEntry)
    (h : e.Typeflag = TypeDir) :
    (unpackEntry cwd hex w e).1 =
        { fs := (mkdirAll w.fs (entryPath cwd hex e.Name)).1,
          trace := w.trace ++ [Event.mkdirAll (entryPath cwd hex e.Name)] } ∧
      ((unpackEntry cwd hex w e).2 = none ↔
        (mkdirAll w.fs (entryPath cwd hex e.Name)).2 = none) := by
  unfold unpackEntry osMkdirAll
  rw [if_pos h]
  cases hm : (mkdirAll w.fs (resolve cwd (joinLayerPath hex e.Name))).2 <;>
    simp [entryPath, hm]

theorem unpackEntry_other (cwd : Path) (hex : String) (w : World) (e : TarEntry)
    (h1 : e.Typeflag ≠ TypeDir) (h2 : e.Typeflag ≠ TypeReg) :
    unpackEntry cwd hex w e = (w, none) := by
  unfold unpackEntry
  rw [if_neg h1, if_neg h2]

theorem typeDir_ne_typeReg : TypeDir ≠ TypeReg := by decide

theorem unpackEntry_reg_fail (cwd : Path) (hex : String) (w : World) (e : TarEntry)
    (h : e.Typeflag = TypeReg) (en : Errno)
    (hc : (create w.fs (entryPath cwd hex e.Name)).2 = some en) :
    unpackEntry cwd hex w e =
      ({ fs := w.fs, trace := w.trace ++ [Event.create (entryPath cwd hex e.Name)] },
        some (Error.wrap "error creating file" (Error.errno en))) := by
  have hne : e.Typeflag ≠ TypeDir := by rw [h]; exact fun x => typeDir_ne_typeReg x.symm
  have hfs : (create w.fs (entryPath cwd hex e.Name)).1 = w.fs := by
    rcases create_cases w.fs (entryPath cwd hex e.Name) with ⟨h1, _⟩ | ⟨_, h2⟩
    · rw [hc] at h1; cases h1
    · exact h2
  unfold entryPath at hc hfs
  unfold unpackEntry osCreate
  rw [if_neg hne, if_pos h]
  simp [entryPath, hc, hfs]

theorem unpackEntry_reg_ok (cwd : Path) (hex : String) (w : World) (e : TarEntry)
    (h : e.Typeflag = TypeReg)
    (hc : (create w.fs (entryPath cwd hex e.Name)).2 = none) :
    unpackEntry cwd hex w e =
      ({ fs := (entryPath cwd hex e.Name, Node.file e.body) ::
            (entryPath cwd hex e.Name, Node.file []) :: w.fs,
         trace := w.trace ++ [Event.create (entryPath cwd hex e.Name),
            Event.write (entryPath cwd hex e.Name) e.body] },
        e.bodyErr.map (Error.wrap "error writing file")) := by
  have hne : e.Typeflag ≠ TypeDir := by rw [h]; exact fun x => typeDir_ne_typeReg x.symm
  have hfs : (create w.fs (entryPath cwd hex e.Name)).1 =
      (entryPath cwd hex e.Name, Node.file []) :: w.fs := by
    rcases create_cases w.fs (entryPath cwd hex e.Name) with ⟨_, h1, _⟩ | ⟨h2, _⟩
    · exact h1
    · exact absurd hc h2
  unfold entryPath at hc hfs
  unfold unpackEntry osCreate ioCopy fileWrite write
  rw [if_neg hne, if_pos h]
  cases hb : e.bodyErr <;> simp [entryPath, hc, hfs, hb]

/-- What one entry does to the filesystem: nothing, `MkdirAll` of its path, or
the creation of its path as a file over a filesystem where that is allowed. -/
theorem unpackEntry_fs (cwd : Path) (hex : String) (w : World) (e : TarEntry) :
    (unpackEntry cwd hex w e).1.fs = w.fs ∨
      (e.Typeflag = TypeDir ∧
        (unpackEntry cwd hex w e).1.fs = (mkdirAll w.fs (entryPath cwd hex e.Name)).1) ∨
      (e.Typeflag = TypeReg ∧ entryPath cwd hex e.Name ≠ [] ∧
        stat w.fs (entryPath cwd hex e.Name).dropLast = Except.ok Node.dir ∧
        lookup w.fs (entryPath cwd hex e.Name) ≠ some Node.dir ∧
        (unpackEntry cwd hex w e).1.fs = (entryPath cwd hex e.Name, Node.file e.body) ::
            (entryPath cwd hex e.Name, Node.file []) :: w.fs) := by
  by_cases h1 : e.Typeflag = TypeDir
  · right; left
    exact ⟨h1, by rw [(unpackEntry_dir cwd hex w e h1).1]⟩
  · by_cases h2 : e.Typeflag = TypeReg
    · rcases create_cases w.fs (entryPath cwd hex e.Name) with ⟨c1, _, c3, c4, c5⟩ | ⟨c1, _⟩
      · right; right
        exact ⟨h2, c3, c4, c5, by rw [unpackEntry_reg_ok cwd hex w e h2 c1]⟩
      · left
        cases hc : (create w.fs (entryPath cwd hex e.Name)).2 with
        | none => exact absurd hc c1
        | some en => rw [unpackEntry_reg_fail cwd hex w e h2 en hc]
    · left
      rw [unpackEntry_other cwd hex w e h1 h2]

theorem lookup_cons_cons_file (fs : FS) (p q : Path) (a b : Bytes) :
    lookup ((p, Node.file a) :: (p, Node.file b) :: fs) q =
      if q = [] then some Node.dir else if p = q then some (Node.file a) else lookup fs q := by
  rw [lookup_cons, lookup_cons]
  by_cases h0 : q = []
  · simp [h0]
  · by_cases hp : p = q <;> simp [h0, hp]

theorem unpackEntry_ext (cwd : Path) (hex : String) (w : World) (e : TarEntry) :
    Ext w.fs (unpackEntry cwd hex w e).1.fs := by
  rcases unpackEntry_fs cwd hex w e with h | ⟨_, h⟩ | ⟨_, h0, _, hl, h⟩
  · rw [h]; exact Ext.refl _
  · rw [h]; exact mkdirAll_ext _ _
  · rw [h]
    refine Ext.trans (ext_cons_file w.fs _ [] hl) (ext_cons_file _ _ e.body ?_)
    simp [lookup_cons, h0]

/-- Every object stays as it is through one entry, unless the entry is a regular
file written to that very path. -/
theorem unpackEntry_mono (cwd : Path) (hex : String) (w : World) (e : TarEntry)
    (q : Path) (n : Node) (hq : lookup w.fs q = some n)
    (hne : ¬ (e.Typeflag = TypeReg ∧ entryPath cwd hex e.Name = q)) :
    lookup (unpackEntry cwd hex w e).1.fs q = some n := by
  rcases unpackEntry_fs cwd hex w e with h | ⟨_, h⟩ | ⟨hr, _, _, _, h⟩
  · rw [h]; exact hq
  · rw [h]; exact mkdirAll_mono _ _ _ _ hq
  · rw [h, lookup_cons_cons_file]
    by_cases h0 : q = []
    · subst h0; rw [lookup_nil] at hq; simp [hq]
    · have : entryPath cwd hex e.Name ≠ q := fun x => hne ⟨hr, x⟩
      simp [h0, this, hq]

/-- A path whose entry changes through one entry is the path of that entry or
one of its ancestors. -/
theorem unpackEntry_frame (cwd : Path) (hex : String) (w : World) (e : TarEntry)
    (q : Path) (hq : lookup (unpackEntry cwd hex w e).1.fs q ≠ lookup w.fs q) :
    (e.Typeflag = TypeDir ∨ e.Typeflag = TypeReg) ∧ q <+: entryPath cwd hex e.Name := by
  rcases unpackEntry_fs cwd hex w e with h | ⟨hd, h⟩ | ⟨hr, _, _, _, h⟩
  · rw [h] at hq; exact absurd rfl hq
  · rw [h] at hq
    exact ⟨Or.inl hd, (mkdirAll_frame _ _ _ hq).1⟩
  · rw [h, lookup_cons_cons_file] at hq
    by_cases h0 : q = []
    · subst h0; simp [lookup_nil] at hq
    · by_cases hp : entryPath cwd hex e.Name = q
      · exact ⟨Or.inr hr, by rw [hp]⟩
      · simp [h0, hp] at hq

theorem unpackEntry_dir_stat (cwd : Path) (hex : String) (w : World) (e : TarEntry)
    (h : e.Typeflag = TypeDir) (hok : (unpackEntry cwd hex w e).2 = none) :
    stat (unpackEntry cwd hex w e).1.fs (entryPath cwd hex e.Name) = Except.ok Node.dir := by
  obtain ⟨h1, h2⟩ := unpackEntry_dir cwd hex w e h
  rw [h1]
  exact mkdirAll_stat _ _ (h2.1 hok)

theorem unpackEntry_reg_stat (cwd : Path) (hex : String) (w : World) (e : TarEntry)
    (h : e.Typeflag = TypeReg) (hok : (unpackEntry cwd hex w e).2 = none) :
    stat (unpackEntry cwd hex w e).1.fs (entryPath cwd hex e.Name) =
      Except.ok (Node.file e.body) := by
  rcases create_cases w.fs (entryPath cwd hex e.Name) with ⟨c1, _, c3, c4, c5⟩ | ⟨c1, _⟩
  · rw [unpackEntry_reg_ok cwd hex w e h c1]
    refine stat_cons_file _ _ e.body c3 ?_ (by simp [lookup_cons, c3])
    exact stat_dir_of_ext (ext_cons_file w.fs _ [] c5) _ c4
  · cases hc : (create w.fs (entryPath cwd hex e.Name)).2 with
    | none => exact absurd hc c1
    | some en => rw [unpackEntry_reg_fail cwd hex w e h en hc] at hok; cases hok

/-- The trace grows by calls that change the filesystem, at most two of them. -/
theorem unpackEntry_trace (cwd : Path) (hex : String) (w : World) (e : TarEntry) :
    ∃ evs, (unpackEntry cwd hex w e).1.trace = w.trace ++ evs ∧
      ∀ ev ∈ evs, ev.isFileCall = true := by
  by_cases h1 : e.Typeflag = TypeDir
  · exact ⟨_, by rw [(unpackEntry_dir cwd hex w e h1).1], by simp [Event.isFileCall]⟩
  · by_cases h2 : e.Typeflag = TypeReg
    · cases hc : (create w.fs (entryPath cwd hex e.Name)).2 with
      | none =>
        exact ⟨_, by rw [unpackEntry_reg_ok cwd hex w e h2 hc], by simp [Event.isFileCall]⟩
      | some en =>
        exact ⟨_, by rw [unpackEntry_reg_fail cwd hex w e h2 en hc], by simp [Event.isFileCall]⟩
    · exact ⟨[], by rw [unpackEntry_other cwd hex w e h1 h2]; simp, by simp⟩

/-! ## The unpack loop -/

theorem stat_of_ext_lookup {fs fs1 : FS} (hext : Ext fs fs1) (p : Path) (n n1 : Node)
    (h : stat fs p = Except.ok n) (hl : lookup fs1 p = some n1) :
    stat fs1 p = Except.ok n1 := by
  rcases List.eq_nil_or_concat p with hp | ⟨q, c, hp⟩
  · subst hp
    rw [lookup_nil] at hl
    cases hl
    exact stat_nil fs1
  · rw [List.concat_eq_append] at hp
    subst hp
    rw [stat_snoc_ok_iff] at h ⊢
    exact ⟨stat_dir_of_ext hext _ h.1, hl⟩

theorem unpackLoop_nil (cwd : Path) (hex : String) (w : World) :
    unpackLoop cwd hex none w [] = (w, none) := rfl

theorem unpackLoop_cons_ok (cwd : Path) (hex : String) (re : Option Error) (w : World)
    (e : TarEntry) (rest : List TarEntry) (h : (unpackEntry cwd hex w e).2 = none) :
    unpackLoop cwd hex re w (e :: rest) =
      unpackLoop cwd hex re (unpackEntry cwd hex w e).1 rest := by
  rw [unpackLoop]
  cases hu : unpackEntry cwd hex w e with
  | mk w1 r =>
    rw [hu] at h
    simp only at h
    subst h
    rfl

theorem unpackLoop_cons_err (cwd : Path) (hex : String) (re : Option Error) (w : World)
    (e : TarEntry) (rest : List TarEntry) (h : (unpackEntry cwd hex w e).2 ≠ none) :
    unpackLoop cwd hex re w (e :: rest) = unpackEntry cwd hex w e := by
  rw [unpackLoop]
  cases hu : unpackEntry cwd hex w e with
  | mk w1 r =>
    rw [hu] at h
    cases r with
    | none => exact absurd rfl h
    | some err => rfl

theorem unpackLoop_ext (cwd : Path) (hex : String) (re : Option Error)
    (entries : List TarEntry) :
    ∀ w : World, Ext w.fs (unpackLoop cwd hex re w entries).1.fs := by
  induction entries with
  | nil =>
    intro w
    cases re <;> exact Ext.refl _
  | cons e rest ih =>
    intro w
    by_cases h : (unpackEntry cwd hex w e).2 = none
    · rw [unpackLoop_cons_ok _ _ _ _ _ _ h]
      exact Ext.trans (unpackEntry_ext cwd hex w e) (ih _)
    · rw [unpackLoop_cons_err _ _ _ _ _ _ h]
      exact unpackEntry_ext cwd hex w e

theorem unpackLoop_nil_fs (cwd : Path) (hex : String) (re : Option Error) (w : World) :
    (unpackLoop cwd hex re w []).1 = w := by
  cases re <;> rfl

theorem unpackLoop_mono (cwd : Path) (hex : String) (re : Option Error)
    (entries : List TarEntry) (q : Path) (n : Node)
    (hne : ∀ e ∈ entries, ¬ (e.Typeflag = TypeReg ∧ entryPath cwd hex e.Name = q)) :
    ∀ w : World, lookup w.fs q = some n →
      lookup (unpackLoop cwd hex re w entries).1.fs q = some n := by
  induction entries with
  | nil =>
    intro w hq
    rw [unpackLoop_nil_fs]; exact hq
  | cons e rest ih =>
    intro w hq
    have h1 := unpackEntry_mono cwd hex w e q n hq (hne e (List.mem_cons_self _ _))
    by_cases h : (unpackEntry cwd hex w e).2 = none
    · rw [unpackLoop_cons_ok _ _ _ _ _ _ h]
      exact ih (fun x hx => hne x (List.mem_cons_of_mem _ hx)) _ h1
    · rw [unpackLoop_cons_err _ _ _ _ _ _ h]
      exact h1

theorem unpackLoop_frame (cwd : Path) (hex : String) (re : Option Error)
    (entries : List TarEntry) (q : Path) :
    ∀ w : World, lookup (unpackLoop cwd hex re w entries).1.fs q ≠ lookup w.fs q →
      ∃ e ∈ entries, (e.Typeflag = TypeDir ∨ e.Typeflag = TypeReg) ∧
        q <+: entryPath cwd hex e.Name := by
  induction entries with
  | nil =>
    intro w hq
    rw [unpackLoop_nil_fs] at hq
    exact absurd rfl hq
  | cons e rest ih =>
    intro w hq
    by_cases hstep : lookup (unpackEntry cwd hex w e).1.fs q = lookup w.fs q
    · have hok : (unpackEntry cwd hex w e).2 = none := by
        by_contra h
        rw [unpackLoop_cons_err _ _ _ _ _ _ h] at hq
        exact hq hstep
      rw [unpackLoop_cons_ok _ _ _ _ _ _ hok, ← hstep] at hq
      obtain ⟨x, hx, hres⟩ := ih _ hq
      exact ⟨x, List.mem_cons_of_mem _ hx, hres⟩
    · exact ⟨e, List.mem_cons_self _ _, unpackEntry_frame cwd hex w e q hstep⟩

theorem unpackLoop_trace (cwd : Path) (hex : String) (re : Option Error)
    (entries : List TarEntry) :
    ∀ w : World, ∃ evs, (unpackLoop cwd hex re w entries).1.trace = w.trace ++ evs ∧
      ∀ ev ∈ evs, ev.isFileCall = true := by
  induction entries with
  | nil =>
    intro w
    exact ⟨[], by rw [unpackLoop_nil_fs]; simp, by simp⟩
  | cons e rest ih =>
    intro w
    obtain ⟨evs1, h1, h2⟩ := unpackEntry_trace cwd hex w e
    by_cases h : (unpackEntry cwd hex w e).2 = none
    · rw [unpackLoop_cons_ok _ _ _ _ _ _ h]
      obtain ⟨evs2, h3, h4⟩ := ih (unpackEntry cwd hex w e).1
      refine ⟨evs1 ++ evs2, by rw [h3, h1, List.append_assoc], ?_⟩
      intro ev hev
      rcases List.mem_append.1 hev with hev | hev
      · exact h2 ev hev
      · exact h4 ev hev
    · rw [unpackLoop_cons_err _ _ _ _ _ _ h]
      exact ⟨evs1, h1, h2⟩

/-- The loop over `pre ++ rest` is the loop over `pre` (ending at `io.EOF`)
followed, if that went well, by the loop over `rest`. -/
theorem unpackLoop_append (cwd : Path) (hex : String) (re : Option Error)
    (pre rest : List TarEntry) :
    ∀ w : World, (unpackLoop cwd hex none w pre).2 = none →
      unpackLoop cwd hex re w (pre ++ rest) =
        unpackLoop cwd hex re (unpackLoop cwd hex none w pre).1 rest := by
  induction pre with
  | nil => intro w _; rfl
  | cons e pre ih =>
    intro w hok
    by_cases h : (unpackEntry cwd hex w e).2 = none
    · rw [unpackLoop_cons_ok _ _ _ _ _ _ h] at hok
      rw [List.cons_append, unpackLoop_cons_ok _ _ _ _ _ _ h, unpackLoop_cons_ok _ _ _ _ _ _ h]
      exact ih _ hok
    · rw [unpackLoop_cons_err _ _ _ _ _ _ h] at hok
      exact absurd hok h

theorem lastRegBody_some (cwd : Path) (hex : String) (entries : List TarEntry) (p : Path)
    (b : Bytes) (h : lastRegBody cwd hex entries p = some b) :
    ∃ e ∈ entries, e.Typeflag = TypeReg ∧ entryPath cwd hex e.Name = p := by
  induction entries with
  | nil => simp [lastRegBody] at h
  | cons e rest ih =>
    rw [lastRegBody] at h
    cases hr : lastRegBody cwd hex rest p with
    | some b1 =>
      rw [hr] at h
      cases h
      obtain ⟨x, hx, hres⟩ := ih hr
      exact ⟨x, List.mem_cons_of_mem _ hx, hres⟩
    | none =>
      rw [hr] at h
      simp only at h
      by_cases hc : e.Typeflag = TypeReg ∧ entryPath cwd hex e.Name = p
      · exact ⟨e, List.mem_cons_self _ _, hc⟩
      · rw [if_neg hc] at h; cases h

theorem lastRegBody_none (cwd : Path) (hex : String) (entries : List TarEntry) (p : Path)
    (h : lastRegBody cwd hex entries p = none) :
    ∀ e ∈ entries, ¬ (e.Typeflag = TypeReg ∧ entryPath cwd hex e.Name = p) := by
  induction entries with
  | nil => simp
  | cons e rest ih =>
    rw [lastRegBody] at h
    cases hr : lastRegBody cwd hex rest p with
    | some b1 => rw [hr] at h; cases h
    | none =>
      rw [hr] at h
      simp only at h
      intro x hx
      rcases List.mem_cons.1 hx with rfl | hx
      · intro hc
        rw [if_pos hc] at h
        cases h
      · exact ih hr x hx

/-- After a loop that ended well every directory entry is a directory and every
regular-file entry is a file holding the body of the last regular-file entry
written to its path. -/
theorem unpackLoop_complete (cwd : Path) (hex : String) (re : Option Error)
    (entries : List TarEntry) :
    ∀ w : World, (unpackLoop cwd hex re w entries).2 = none →
      ∀ e ∈ entries,
        (e.Typeflag = TypeDir →
          stat (unpackLoop cwd hex re w entries).1.fs (entryPath cwd hex e.Name) =
            Except.ok Node.dir) ∧
        (e.Typeflag = TypeReg →
          ∃ b, lastRegBody cwd hex entries (entryPath cwd hex e.Name) = some b ∧
            stat (unpackLoop cwd hex re w entries).1.fs (entryPath cwd hex e.Name) =
              Except.ok (Node.file b)) := by
  induction entries with
  | nil => intro w _ e he; cases he
  | cons h rest ih =>
    intro w hok e he
    have hstep : (unpackEntry cwd hex w h).2 = none := by
      by_contra hc
      rw [unpackLoop_cons_err _ _ _ _ _ _ hc] at hok
      exact hc hok
    rw [unpackLoop_cons_ok _ _ _ _ _ _ hstep] at hok ⊢
    have hext := unpackLoop_ext cwd hex re rest (unpackEntry cwd hex w h).1
    rcases List.mem_cons.1 he with rfl | he
    · constructor
      · intro hd
        exact stat_dir_of_ext hext _ (unpackEntry_dir_stat cwd hex w e hd hstep)
      · intro hr
        have hs := unpackEntry_reg_stat cwd hex w e hr hstep
        cases hl : lastRegBody cwd hex rest (entryPath cwd hex e.Name) with
        | some b =>
          obtain ⟨x, hx, hxr, hxp⟩ := lastRegBody_some cwd hex rest _ b hl
          obtain ⟨b1, hb1, hb2⟩ := (ih _ hok x hx).2 hxr
          rw [hxp] at hb1 hb2
          rw [hl] at hb1
          cases hb1
          exact ⟨b, by simp [lastRegBody, hl], hb2⟩
        | none =>
          refine ⟨e.body, by simp [lastRegBody, hl, hr], ?_⟩
          have hm := unpackLoop_mono cwd hex re rest _ _
            (lastRegBody_none cwd hex rest _ hl) _ (stat_ok_lookup _ _ _ hs)
          exact stat_of_ext_lookup hext _ _ _ hs hm
    · obtain ⟨h1, h2⟩ := ih _ hok e he
      refine ⟨h1, fun hr => ?_⟩
      obtain ⟨b, hb1, hb2⟩ := h2 hr
      exact ⟨b, by simp [lastRegBody, hb1], hb2⟩

/-! ## The layer store -/

theorem storeInLayerdb_hit (env : Env) (layer : Descriptor) (img : Image) (w : World)
    (n : Node) (h : stat w.fs (layerDir env.cwd layer.Digest.Hex) = Except.ok n) :
    storeInLayerdb env layer img w =
      ({ fs := w.fs,
         trace := w.trace ++
           [Event.print ("Pulling layer:  " ++ layer.Digest.Hex),
            Event.stat (layerDir env.cwd layer.Digest.Hex),
            Event.print "Layer found in cache"] }, none) := by
  unfold layerDir at h
  simp [storeInLayerdb, osStat, println, World.log, h, errOf, isNotExist, layerDir]

theorem storeInLayerdb_checkfail (env : Env) (layer : Descriptor) (img : Image) (w : World)
    (e : Errno) (h : stat w.fs (layerDir env.cwd layer.Digest.Hex) = Except.error e)
    (he : e ≠ Errno.ENOENT) :
    storeInLayerdb env layer img w =
      ((afterCheck env layer w),
        some (Error.wrap "error checking layer cache" (Error.errno e))) := by
  unfold layerDir at h
  have hn : isNotExist (some e) = false := by
    cases e <;> simp [isNotExist] at he ⊢
  simp [storeInLayerdb, osStat, println, World.log, h, errOf, hn, layerDir, afterCheck]

theorem storeInLayerdb_miss (env : Env) (layer : Descriptor) (img : Image) (w : World)
    (h : stat w.fs (layerDir env.cwd layer.Digest.Hex) = Except.error Errno.ENOENT) :
    storeInLayerdb env layer img w =
      extractLayer env layer img (afterCheck env layer w) := by
  unfold layerDir at h
  simp [storeInLayerdb, osStat, println, World.log, h, errOf, isNotExist, layerDir, afterCheck]

theorem extractLayer_mkdir_fail (env : Env) (layer : Descriptor) (img : Image) (w : World)
    (e : Errno) (h : (mkdirAll w.fs (layerDir env.cwd layer.Digest.Hex)).2 = some e) :
    extractLayer env layer img w =
      ({ fs := (mkdirAll w.fs (layerDir env.cwd layer.Digest.Hex)).1,
         trace := w.trace ++ [Event.mkdirAll (layerDir env.cwd layer.Digest.Hex)] },
        some (Error.wrap "error creating layer directory" (Error.errno e))) := by
  unfold layerDir at h
  simp [extractLayer, osMkdirAll, h, layerDir]

theorem extractLayer_lookup_fail (env : Env) (layer : Descriptor) (img : Image) (w : World)
    (e : Error) (h : (mkdirAll w.fs (layerDir env.cwd layer.Digest.Hex)).2 = none)
    (hl : img.LayerByDigest layer.Digest = Except.error e) :
    extractLayer env layer img w =
      ({ fs := (mkdirAll w.fs (layerDir env.cwd layer.Digest.Hex)).1,
         trace := w.trace ++ [Event.mkdirAll (layerDir env.cwd layer.Digest.Hex),
           Event.layerByDigest layer.Digest.Hex] },
        some (Error.wrap "error getting layer reader" e)) := by
  unfold layerDir at h
  simp [extractLayer, osMkdirAll, h, hl, layerDir, World.log]

theorem extractLayer_stream_fail (env : Env) (layer : Descriptor) (img : Image) (w : World)
    (l : Layer) (e : Error) (h : (mkdirAll w.fs (layerDir env.cwd layer.Digest.Hex)).2 = none)
    (hl : img.LayerByDigest layer.Digest = Except.ok l)
    (hu : l.Uncompressed = Except.error e) :
    extractLayer env layer img w =
      ({ fs := (mkdirAll w.fs (layerDir env.cwd layer.Digest.Hex)).1,
         trace := w.trace ++ [Event.mkdirAll (layerDir env.cwd layer.Digest.Hex),
           Event.layerByDigest layer.Digest.Hex, Event.uncompressed layer.Digest.Hex] },
        some (Error.wrap "error getting layer reader" e)) := by
  unfold layerDir at h
  simp [extractLayer, osMkdirAll, h, hl, hu, layerDir, World.log]

theorem extractLayer_loop (env : Env) (layer : Descriptor) (img : Image) (w : World)
    (l : Layer) (s : TarStream)
    (h : (mkdirAll w.fs (layerDir env.cwd layer.Digest.Hex)).2 = none)
    (hl : img.LayerByDigest layer.Digest = Except.ok l)
    (hu : l.Uncompressed = Except.ok s) :
    extractLayer env layer img w =
      match unpackLoop env.cwd layer.Digest.Hex s.readErr
          { fs := (mkdirAll w.fs (layerDir env.cwd layer.Digest.Hex)).1,
            trace := w.trace ++ [Event.mkdirAll (layerDir env.cwd layer.Digest.Hex),
              Event.layerByDigest layer.Digest.Hex, Event.uncompressed layer.Digest.Hex] }
          s.entries with
      | (w2, some e) => (w2, some e)
      | (w2, none) => (println w2 "Layer pulled", none) := by
  unfold layerDir at h
  simp [extractLayer, osMkdirAll, h, hl, hu, layerDir, World.log]

/-- On a missing layer directory with a stream at hand, `storeInLayerdb` is the
loop run from `loopStart`, followed by the line `Layer pulled` if it ends well. -/
theorem storeInLayerdb_loop (env : Env) (layer : Descriptor) (img : Image) (w : World)
    (l : Layer) (s : TarStream)
    (hs : stat w.fs (layerDir env.cwd layer.Digest.Hex) = Except.error Errno.ENOENT)
    (h : (mkdirAll w.fs (layerDir env.cwd layer.Digest.Hex)).2 = none)
    (hl : img.LayerByDigest layer.Digest = Except.ok l)
    (hu : l.Uncompressed = Except.ok s) :
    storeInLayerdb env layer img w =
      match unpackLoop env.cwd layer.Digest.Hex s.readErr (loopStart env layer w)
          s.entries with
      | (w2, some e) => (w2, some e)
      | (w2, none) => (println w2 "Layer pulled", none) := by
  rw [storeInLayerdb_miss env layer img w hs]
  rw [extractLayer_loop env layer img (afterCheck env layer w) l s h hl hu]
  simp [loopStart, afterCheck]

theorem println_fs (w : World) (line : String) : (println w line).fs = w.fs := rfl

/-- The four ways the extraction block can go, by what the collaborators answer. -/
theorem extractLayer_cases (env : Env) (layer : Descriptor) (img : Image) (w : World) :
    (∃ e, (mkdirAll w.fs (layerDir env.cwd layer.Digest.Hex)).2 = some e) ∨
    ((mkdirAll w.fs (layerDir env.cwd layer.Digest.Hex)).2 = none ∧
      ((∃ e, img.LayerByDigest layer.Digest = Except.error e) ∨
       (∃ l e, img.LayerByDigest layer.Digest = Except.ok l ∧
          l.Uncompressed = Except.error e) ∨
       (∃ l s, img.LayerByDigest layer.Digest = Except.ok l ∧
          l.Uncompressed = Except.ok s))) := by
  cases hm : (mkdirAll w.fs (layerDir env.cwd layer.Digest.Hex)).2 with
  | some e => exact Or.inl ⟨e, rfl⟩
  | none =>
    refine Or.inr ⟨rfl, ?_⟩
    match hl : img.LayerByDigest layer.Digest with
    | Except.error e => exact Or.inl ⟨e, rfl⟩
    | Except.ok l =>
      match hu : l.Uncompressed with
      | Except.error e => exact Or.inr (Or.inl ⟨l, e, rfl, hu⟩)
      | Except.ok s => exact Or.inr (Or.inr ⟨l, s, rfl, hu⟩)

/-- The result of the tail of `storeInLayerdb` after the loop. -/
theorem loop_tail_fs (r : World × Option Error) :
    (match r with
      | (w2, some e) => (w2, some e)
      | (w2, none) => (println w2 "Layer pulled", none) : World × Option Error).1.fs = r.1.fs := by
  obtain ⟨w2, o⟩ := r
  cases o <;> rfl

theorem loop_tail_err (r : World × Option Error) :
    (match r with
      | (w2, some e) => (w2, some e)
      | (w2, none) => (println w2 "Layer pulled", none) : World × Option Error).2 = r.2 := by
  obtain ⟨w2, o⟩ := r
  cases o <;> rfl

theorem loop_tail_trace (r : World × Option Error) :
    (match r with
      | (w2, some e) => (w2, some e)
      | (w2, none) => (println w2 "Layer pulled", none) : World × Option Error).1.trace =
      r.1.trace ++ (if r.2 = none then [Event.print "Layer pulled"] else []) := by
  obtain ⟨w2, o⟩ := r
  cases o <;> simp [println, World.log]

theorem extractLayer_ext (env : Env) (layer : Descriptor) (img : Image) (w : World) :
    Ext w.fs (extractLayer env layer img w).1.fs := by
  rcases extractLayer_cases env layer img w with ⟨e, h⟩ | ⟨h, ⟨e, hl⟩ | ⟨l, e, hl, hu⟩ |
    ⟨l, s, hl, hu⟩⟩
  · rw [extractLayer_mkdir_fail env layer img w e h]; exact mkdirAll_ext _ _
  · rw [extractLayer_lookup_fail env layer img w e h hl]; exact mkdirAll_ext _ _
  · rw [extractLayer_stream_fail env layer img w l e h hl hu]; exact mkdirAll_ext _ _
  · rw [extractLayer_loop env layer img w l s h hl hu, loop_tail_fs]
    exact Ext.trans (mkdirAll_ext w.fs _)
      (unpackLoop_ext env.cwd layer.Digest.Hex s.readErr s.entries ⟨_, _⟩)

theorem extractLayer_stat (env : Env) (layer : Descriptor) (img : Image) (w : World)
    (h : (mkdirAll w.fs (layerDir env.cwd layer.Digest.Hex)).2 = none) :
    stat (extractLayer env layer img w).1.fs (layerDir env.cwd layer.Digest.Hex) =
      Except.ok Node.dir := by
  have hd := mkdirAll_stat _ _ h
  rcases extractLayer_cases env layer img w with ⟨e, h1⟩ | ⟨_, ⟨e, hl⟩ | ⟨l, e, hl, hu⟩ |
    ⟨l, s, hl, hu⟩⟩
  · rw [h] at h1; cases h1
  · rw [extractLayer_lookup_fail env layer img w e h hl]; exact hd
  · rw [extractLayer_stream_fail env layer img w l e h hl hu]; exact hd
  · rw [extractLayer_loop env layer img w l s h hl hu, loop_tail_fs]
    exact stat_dir_of_ext
      (unpackLoop_ext env.cwd layer.Digest.Hex s.readErr s.entries ⟨_, _⟩) _ hd

/-- The trace of the extraction block starts with the `MkdirAll` of the layer
directory. -/
theorem extractLayer_trace_head (env : Env) (layer : Descriptor) (img : Image) (w : World) :
    ∃ evs, (extractLayer env layer img w).1.trace =
      w.trace ++ Event.mkdirAll (layerDir env.cwd layer.Digest.Hex) :: evs := by
  rcases extractLayer_cases env layer img w with ⟨e, h⟩ | ⟨h, ⟨e, hl⟩ | ⟨l, e, hl, hu⟩ |
    ⟨l, s, hl, hu⟩⟩
  · exact ⟨[], by rw [extractLayer_mkdir_fail env layer img w e h]⟩
  · exact ⟨_, by rw [extractLayer_lookup_fail env layer img w e h hl]⟩
  · exact ⟨_, by rw [extractLayer_stream_fail env layer img w l e h hl hu]⟩
  · rw [extractLayer_loop env layer img w l s h hl hu, loop_tail_trace]
    obtain ⟨evs, h1, _⟩ := unpackLoop_trace env.cwd layer.Digest.Hex s.readErr s.entries
      { fs := (mkdirAll w.fs (layerDir env.cwd layer.Digest.Hex)).1,
        trace := w.trace ++ [Event.mkdirAll (layerDir env.cwd layer.Digest.Hex),
          Event.layerByDigest layer.Digest.Hex, Event.uncompressed layer.Digest.Hex] }
    rw [h1]
    exact ⟨_, by simp only [List.append_assoc, List.cons_append, List.nil_append]; rfl⟩

theorem storeInLayerdb_ext (env : Env) (layer : Descriptor) (img : Image) (w : World) :
    Ext w.fs (storeInLayerdb env layer img w).1.fs := by
  match hs : stat w.fs (layerDir env.cwd layer.Digest.Hex) with
  | Except.ok n => rw [storeInLayerdb_hit env layer img w n hs]; exact Ext.refl _
  | Except.error e =>
    by_cases he : e = Errno.ENOENT
    · subst he
      rw [storeInLayerdb_miss env layer img w hs]
      exact extractLayer_ext env layer img
        (afterCheck env layer w)
    · rw [storeInLayerdb_checkfail env layer img w e hs he]; exact Ext.refl _

theorem storeInLayerdb_mkdir_ok (env : Env) (layer : Descriptor) (img : Image) (w : World)
    (hs : stat w.fs (layerDir env.cwd layer.Digest.Hex) = Except.error Errno.ENOENT)
    (hok : (storeInLayerdb env layer img w).2 = none) :
    (mkdirAll w.fs (layerDir env.cwd layer.Digest.Hex)).2 = none := by
  cases hm : (mkdirAll w.fs (layerDir env.cwd layer.Digest.Hex)).2 with
  | none => rfl
  | some e =>
    rw [storeInLayerdb_miss env layer img w hs] at hok
    rw [extractLayer_mkdir_fail env layer img
      (afterCheck env layer w) e hm] at hok
    cases hok

/-- A path whose entry `storeInLayerdb` changes is an ancestor of the layer
directory, that directory, or lies below it, when no entry name of the stream
has a `..` component. -/
theorem storeInLayerdb_frame (env : Env) (layer : Descriptor) (img : Image) (w : World)
    (hnd : ∀ l s, img.LayerByDigest layer.Digest = Except.ok l →
      l.Uncompressed = Except.ok s → ∀ e ∈ s.entries, ".." ∉ splitPath e.Name)
    (q : Path) (hq : lookup (storeInLayerdb env layer img w).1.fs q ≠ lookup w.fs q) :
    q <+: layerDir env.cwd layer.Digest.Hex ∨ layerDir env.cwd layer.Digest.Hex <+: q := by
  match hs : stat w.fs (layerDir env.cwd layer.Digest.Hex) with
  | Except.ok n =>
    rw [storeInLayerdb_hit env layer img w n hs] at hq
    exact absurd rfl hq
  | Except.error e =>
    by_cases he : e = Errno.ENOENT
    · subst he
      rw [storeInLayerdb_miss env layer img w hs] at hq
      have hmk : ∀ fs1 : FS, fs1 = (mkdirAll w.fs (layerDir env.cwd layer.Digest.Hex)).1 →
          lookup fs1 q ≠ lookup w.fs q → q <+: layerDir env.cwd layer.Digest.Hex := by
        intro fs1 h1 h2
        subst h1
        exact (mkdirAll_frame _ _ _ h2).1
      rcases extractLayer_cases env layer img
        (afterCheck env layer w) with
        ⟨e, h⟩ | ⟨h, ⟨e, hl⟩ | ⟨l, e, hl, hu⟩ | ⟨l, s, hl, hu⟩⟩
      · rw [extractLayer_mkdir_fail env layer img (afterCheck env layer w) e h] at hq
        exact Or.inl (hmk _ rfl hq)
      · rw [extractLayer_lookup_fail env layer img (afterCheck env layer w) e h hl] at hq
        exact Or.inl (hmk _ rfl hq)
      · rw [extractLayer_stream_fail env layer img (afterCheck env layer w) l e h hl hu] at hq
        exact Or.inl (hmk _ rfl hq)
      · rw [extractLayer_loop env layer img (afterCheck env layer w) l s h hl hu, loop_tail_fs] at hq
        by_cases hm : lookup (mkdirAll w.fs (layerDir env.cwd layer.Digest.Hex)).1 q =
            lookup w.fs q
        · rw [← hm] at hq
          obtain ⟨x, hx, _, hpre⟩ := unpackLoop_frame env.cwd layer.Digest.Hex s.readErr
            s.entries q
            { fs := (mkdirAll w.fs (layerDir env.cwd layer.Digest.Hex)).1,
              trace := (w.trace ++
                [Event.print ("Pulling layer:  " ++ layer.Digest.Hex),
                 Event.stat (layerDir env.cwd layer.Digest.Hex)]) ++
                [Event.mkdirAll (layerDir env.cwd layer.Digest.Hex),
                 Event.layerByDigest layer.Digest.Hex,
                 Event.uncompressed layer.Digest.Hex] } hq
          rw [entryPath_eq] at hpre
          have h2 := resolve_no_dotdot (splitPath x.Name) (layerDir env.cwd layer.Digest.Hex)
            (hnd l s hl hu x hx)
          exact List.prefix_or_prefix_of_prefix hpre h2
        · exact Or.inl (hmk _ rfl hm)
    · rw [storeInLayerdb_checkfail env layer img w e hs he] at hq
      exact absurd rfl hq

/-! ## Counting stream requests -/

theorem count_fileCalls (x : String) (evs : List Event)
    (h : ∀ ev ∈ evs, ev.isFileCall = true) :
    List.count (Event.uncompressed x) evs = 0 := by
  rw [List.count_eq_zero]
  intro hm
  have := h _ hm
  simp [Event.isFileCall] at this

/-- The trace of `storeInLayerdb` is the old trace followed by new events, among
which a stream request can only be one for the digest of the layer. -/
theorem storeInLayerdb_trace (env : Env) (layer : Descriptor) (img : Image) (w : World) :
    ∃ evs, (storeInLayerdb env layer img w).1.trace = w.trace ++ evs ∧
      ∀ x, x ≠ layer.Digest.Hex → List.count (Event.uncompressed x) evs = 0 := by
  match hs : stat w.fs (layerDir env.cwd layer.Digest.Hex) with
  | Except.ok n =>
    rw [storeInLayerdb_hit env layer img w n hs]
    exact ⟨_, rfl, fun x _ => by simp⟩
  | Except.error e =>
    by_cases he : e = Errno.ENOENT
    · subst he
      rw [storeInLayerdb_miss env layer img w hs]
      rcases extractLayer_cases env layer img (afterCheck env layer w) with
        ⟨e, h⟩ | ⟨h, ⟨e, hl⟩ | ⟨l, e, hl, hu⟩ | ⟨l, s, hl, hu⟩⟩
      · rw [extractLayer_mkdir_fail env layer img (afterCheck env layer w) e h]
        exact ⟨_, by simp only [afterCheck, List.append_assoc]; rfl, fun x _ => by simp⟩
      · rw [extractLayer_lookup_fail env layer img (afterCheck env layer w) e h hl]
        exact ⟨_, by simp only [afterCheck, List.append_assoc]; rfl, fun x _ => by simp⟩
      · rw [extractLayer_stream_fail env layer img (afterCheck env layer w) l e h hl hu]
        refine ⟨_, by simp only [afterCheck, List.append_assoc]; rfl, fun x hx => ?_⟩
        simp [hx]
      · rw [extractLayer_loop env layer img (afterCheck env layer w) l s h hl hu, loop_tail_trace]
        obtain ⟨evs, h1, h2⟩ := unpackLoop_trace env.cwd layer.Digest.Hex s.readErr s.entries
          { fs := (mkdirAll (afterCheck env layer w).fs (layerDir env.cwd layer.Digest.Hex)).1,
            trace := (afterCheck env layer w).trace ++
              [Event.mkdirAll (layerDir env.cwd layer.Digest.Hex),
               Event.layerByDigest layer.Digest.Hex, Event.uncompressed layer.Digest.Hex] }
        rw [h1]
        refine ⟨_, by simp only [afterCheck, List.append_assoc]; rfl, fun x hx => ?_⟩
        have hc := count_fileCalls x evs h2
        have htail : ∀ (b : Prop) [Decidable b], List.count (Event.uncompressed x)
            (if b then [Event.print "Layer pulled"] else []) = 0 := by
          intro b _
          split <;> simp
        simp [hx, hc, htail]
    · rw [storeInLayerdb_checkfail env layer img w e hs he]
      exact ⟨_, rfl, fun x _ => by simp⟩

theorem storeInLayerdb_count_other (env : Env) (layer : Descriptor) (img : Image) (w : World)
    (x : String) (hx : x ≠ layer.Digest.Hex) :
    List.count (Event.uncompressed x) (storeInLayerdb env layer img w).1.trace =
      List.count (Event.uncompressed x) w.trace := by
  obtain ⟨evs, h1, h2⟩ := storeInLayerdb_trace env layer img w
  rw [h1, List.count_append, h2 x hx, Nat.add_zero]

theorem storeInLayerdb_count_hit (env : Env) (layer : Descriptor) (img : Image) (w : World)
    (x : String) (n : Node)
    (hs : stat w.fs (layerDir env.cwd layer.Digest.Hex) = Except.ok n) :
    List.count (Event.uncompressed x) (storeInLayerdb env layer img w).1.trace =
      List.count (Event.uncompressed x) w.trace := by
  rw [storeInLayerdb_hit env layer img w n hs]
  simp

/-- A `storeInLayerdb` that finds the layer directory missing and returns nil
has asked for the stream of the layer exactly once. -/
theorem storeInLayerdb_count_miss (env : Env) (layer : Descriptor) (img : Image) (w : World)
    (hs : stat w.fs (layerDir env.cwd layer.Digest.Hex) = Except.error Errno.ENOENT)
    (hok : (storeInLayerdb env layer img w).2 = none) :
    List.count (Event.uncompressed layer.Digest.Hex)
        (storeInLayerdb env layer img w).1.trace =
      List.count (Event.uncompressed layer.Digest.Hex) w.trace + 1 := by
  have hmk := storeInLayerdb_mkdir_ok env layer img w hs hok
  rw [storeInLayerdb_miss env layer img w hs] at hok ⊢
  rcases extractLayer_cases env layer img (afterCheck env layer w) with
    ⟨e, h⟩ | ⟨h, ⟨e, hl⟩ | ⟨l, e, hl, hu⟩ | ⟨l, s, hl, hu⟩⟩
  · rw [extractLayer_mkdir_fail env layer img (afterCheck env layer w) e h] at hok
    cases hok
  · rw [extractLayer_lookup_fail env layer img (afterCheck env layer w) e h hl] at hok
    cases hok
  · rw [extractLayer_stream_fail env layer img (afterCheck env layer w) l e h hl hu] at hok
    cases hok
  · rw [extractLayer_loop env layer img (afterCheck env layer w) l s h hl hu] at hok ⊢
    rw [loop_tail_err] at hok
    rw [loop_tail_trace]
    obtain ⟨evs, h1, h2⟩ := unpackLoop_trace env.cwd layer.Digest.Hex s.readErr s.entries
      { fs := (mkdirAll (afterCheck env layer w).fs (layerDir env.cwd layer.Digest.Hex)).1,
        trace := (afterCheck env layer w).trace ++
          [Event.mkdirAll (layerDir env.cwd layer.Digest.Hex),
           Event.layerByDigest layer.Digest.Hex, Event.uncompressed layer.Digest.Hex] }
    rw [h1]
    have hc := count_fileCalls layer.Digest.Hex evs h2
    rw [if_pos hok]
    simp [hc, afterCheck]

/-! ## The image store -/

theorem exists_eq_value {α : Type} (x : α) : ∃ y, x = y := ⟨x, rfl⟩

/-- What a successful `storeInImagedb` did, step by step. -/
theorem storeInImagedb_ok_inv (env : Env) (img : Image) (manifest : Manifest) (w : World)
    (hok : (storeInImagedb env img manifest w).2 = Outcome.ok) :
    ∃ digest config ic im,
      img.Digest = Except.ok digest ∧
      img.ConfigFile = Except.ok config ∧
      env.marshalIndentConfig config = Except.ok ic ∧
      env.marshalIndentManifest manifest = Except.ok im ∧
      (mkdirAll w.fs (resolve env.cwd imagedbPath)).2 = none ∧
      (mkdirAll (mkdirAll w.fs (resolve env.cwd imagedbPath)).1
        (resolve env.cwd layerdbPath)).2 = none ∧
      (∃ e, stat (rootsMade env.cwd w.fs) (imageDir env.cwd digest.Hex) = Except.error e) ∧
      (mkdirAll (rootsMade env.cwd w.fs) (imageDir env.cwd digest.Hex)).2 = none ∧
      (create (imageDirMade env.cwd digest.Hex w.fs)
        (imageFile env.cwd digest.Hex "config.json")).2 = none ∧
      (create ((imageFile env.cwd digest.Hex "config.json", Node.file ic) ::
          (imageFile env.cwd digest.Hex "config.json", Node.file []) ::
          imageDirMade env.cwd digest.Hex w.fs)
        (imageFile env.cwd digest.Hex "manifest.json")).2 = none ∧
      (storeInImagedb env img manifest w).1.fs =
        (imageFile env.cwd digest.Hex "manifest.json", Node.file im) ::
        (imageFile env.cwd digest.Hex "manifest.json", Node.file []) ::
        (imageFile env.cwd digest.Hex "config.json", Node.file ic) ::
        (imageFile env.cwd digest.Hex "config.json", Node.file []) ::
        imageDirMade env.cwd digest.Hex w.fs ∧
      (storeInImagedb env img manifest w).1.trace =
        w.trace ++
          [Event.mkdirAll (resolve env.cwd imagedbPath),
           Event.mkdirAll (resolve env.cwd layerdbPath),
           Event.stat (imageDir env.cwd digest.Hex),
           Event.mkdirAll (imageDir env.cwd digest.Hex),
           Event.create (imageFile env.cwd digest.Hex "config.json"),
           Event.write (imageFile env.cwd digest.Hex "config.json") ic,
           Event.create (imageFile env.cwd digest.Hex "manifest.json"),
           Event.write (imageFile env.cwd digest.Hex "manifest.json") im] := by
  obtain ⟨rd, hd⟩ := exists_eq_value img.Digest
  rcases rd with e | digest
  · simp [storeInImagedb, hd] at hok
  obtain ⟨o1, h1⟩ := exists_eq_value (mkdirAll w.fs (resolve env.cwd imagedbPath)).2
  rcases o1 with _ | e
  swap
  · simp [storeInImagedb, hd, osMkdirAll, h1] at hok
  obtain ⟨o2, h2⟩ := exists_eq_value (mkdirAll (mkdirAll w.fs (resolve env.cwd imagedbPath)).1
      (resolve env.cwd layerdbPath)).2
  rcases o2 with _ | e
  swap
  · simp [storeInImagedb, hd, osMkdirAll, h1, h2] at hok
  obtain ⟨r3, h3⟩ := exists_eq_value
    (stat (rootsMade env.cwd w.fs) (imageDir env.cwd digest.Hex))
  rcases r3 with e3 | n
  swap
  · simp only [rootsMade, imageDir] at h3
    simp [storeInImagedb, hd, osMkdirAll, osStat, h1, h2, h3, World.log] at hok
  obtain ⟨o4, h4⟩ := exists_eq_value
    (mkdirAll (rootsMade env.cwd w.fs) (imageDir env.cwd digest.Hex)).2
  rcases o4 with _ | e
  swap
  · simp only [rootsMade, imageDir] at h3 h4
    simp [storeInImagedb, hd, osMkdirAll, osStat, h1, h2, h3, h4, World.log] at hok
  obtain ⟨o5, h5⟩ := exists_eq_value (create (imageDirMade env.cwd digest.Hex w.fs)
        (imageFile env.cwd digest.Hex "config.json")).2
  rcases o5 with _ | e
  swap
  · simp only [imageDirMade, imageFile, rootsMade, imageDir] at h3 h4 h5
    simp [storeInImagedb, hd, osMkdirAll, osStat, osCreate, h1, h2, h3, h4, h5, World.log] at hok
  have h5fs : (create (imageDirMade env.cwd digest.Hex w.fs)
        (imageFile env.cwd digest.Hex "config.json")).1 =
      (imageFile env.cwd digest.Hex "config.json", Node.file []) ::
        imageDirMade env.cwd digest.Hex w.fs := by
    rcases create_cases (imageDirMade env.cwd digest.Hex w.fs)
      (imageFile env.cwd digest.Hex "config.json") with ⟨_, hfs, _⟩ | ⟨hne, _⟩
    · exact hfs
    · exact absurd h5 hne
  obtain ⟨rc, hc⟩ := exists_eq_value img.ConfigFile
  rcases rc with e | config
  · simp only [imageDirMade, imageFile, rootsMade, imageDir] at h3 h4 h5
    simp [storeInImagedb, hd, osMkdirAll, osStat, osCreate, h1, h2, h3, h4, h5, hc,
      World.log] at hok
  obtain ⟨ri, hic⟩ := exists_eq_value (env.marshalIndentConfig config)
  rcases ri with e | ic
  · simp only [imageDirMade, imageFile, rootsMade, imageDir] at h3 h4 h5
    simp [storeInImagedb, hd, osMkdirAll, osStat, osCreate, h1, h2, h3, h4, h5, hc, hic,
      World.log] at hok
  obtain ⟨o7, h7⟩ := exists_eq_value
    (create ((imageFile env.cwd digest.Hex "config.json", Node.file ic) ::
          (imageFile env.cwd digest.Hex "config.json", Node.file []) ::
          imageDirMade env.cwd digest.Hex w.fs)
        (imageFile env.cwd digest.Hex "manifest.json")).2
  rcases o7 with _ | e
  swap
  · simp only [imageDirMade, imageFile, rootsMade, imageDir] at h3 h4 h5 h5fs h7
    simp [storeInImagedb, hd, osMkdirAll, osStat, osCreate, fileWrite, write, h1, h2, h3, h4,
      h5, h5fs, hc, hic, h7, World.log] at hok
  have h7fs : (create ((imageFile env.cwd digest.Hex "config.json", Node.file ic) ::
          (imageFile env.cwd digest.Hex "config.json", Node.file []) ::
          imageDirMade env.cwd digest.Hex w.fs)
        (imageFile env.cwd digest.Hex "manifest.json")).1 =
      (imageFile env.cwd digest.Hex "manifest.json", Node.file []) ::
        (imageFile env.cwd digest.Hex "config.json", Node.file ic) ::
        (imageFile env.cwd digest.Hex "config.json", Node.file []) ::
        imageDirMade env.cwd digest.Hex w.fs := by
    rcases create_cases ((imageFile env.cwd digest.Hex "config.json", Node.file ic) ::
          (imageFile env.cwd digest.Hex "config.json", Node.file []) ::
          imageDirMade env.cwd digest.Hex w.fs)
      (imageFile env.cwd digest.Hex "manifest.json") with ⟨_, hfs, _⟩ | ⟨hne, _⟩
    · exact hfs
    · exact absurd h7 hne
  obtain ⟨rm, him⟩ := exists_eq_value (env.marshalIndentManifest manifest)
  rcases rm with e | im
  · simp only [imageDirMade, imageFile, rootsMade, imageDir] at h3 h4 h5 h5fs h7 h7fs
    simp [storeInImagedb, hd, osMkdirAll, osStat, osCreate, fileWrite, write, h1, h2, h3, h4,
      h5, h5fs, hc, hic, h7, h7fs, him, World.log] at hok
  refine ⟨digest, config, ic, im, hd, hc, hic, him, h1, h2, ⟨e3, h3⟩, h4, h5, h7, ?_⟩
  simp only [imageDirMade, imageFile, rootsMade, imageDir] at h3 h4 h5 h5fs h7 h7fs ⊢
  simp [storeInImagedb, hd, osMkdirAll, osStat, osCreate, fileWrite, write, h1, h2, h3, h4,
    h5, h5fs, hc, hic, h7, h7fs, him, World.log]

theorem imageFile_config (cwd : Path) (hex : String) :
    imageFile cwd hex "config.json" = imageDir cwd hex ++ ["config.json"] := by
  simp [imageFile, imageDir, imagedbPath, resolve, resolveStep]

theorem imageFile_manifest (cwd : Path) (hex : String) :
    imageFile cwd hex "manifest.json" = imageDir cwd hex ++ ["manifest.json"] := by
  simp [imageFile, imageDir, imagedbPath, resolve, resolveStep]

theorem storeInImagedb_hit (env : Env) (img : Image) (manifest : Manifest) (w : World)
    (digest : Hash) (n : Node) (hd : img.Digest = Except.ok digest)
    (h1 : stat w.fs (resolve env.cwd imagedbPath) = Except.ok Node.dir)
    (h2 : stat w.fs (resolve env.cwd layerdbPath) = Except.ok Node.dir)
    (h3 : stat w.fs (imageDir env.cwd digest.Hex) = Except.ok n) :
    storeInImagedb env img manifest w =
      ({ fs := w.fs,
         trace := w.trace ++
           [Event.mkdirAll (resolve env.cwd imagedbPath),
            Event.mkdirAll (resolve env.cwd layerdbPath),
            Event.stat (imageDir env.cwd digest.Hex),
            Event.print "Image found in cache"] }, Outcome.exit 0) := by
  have m1 := mkdirAll_of_dir _ _ h1
  have m2 := mkdirAll_of_dir _ _ h2
  simp only [imageDir] at h3
  simp [storeInImagedb, hd, osMkdirAll, osStat, m1, m2, h3, World.log, println, imageDir]

/-- The facts about a successful `storeInImagedb` the other proofs use: it only
adds to the filesystem, the two roots and the image directory are directories
afterwards, the two files hold the two serializations, and no other path
changes than the ancestors of these directories and the two files. -/
theorem storeInImagedb_ok_facts (env : Env) (img : Image) (manifest : Manifest) (w : World)
    (hok : (storeInImagedb env img manifest w).2 = Outcome.ok) :
    ∃ digest config ic im,
      img.Digest = Except.ok digest ∧
      img.ConfigFile = Except.ok config ∧
      env.marshalIndentConfig config = Except.ok ic ∧
      env.marshalIndentManifest manifest = Except.ok im ∧
      Ext w.fs (storeInImagedb env img manifest w).1.fs ∧
      stat (storeInImagedb env img manifest w).1.fs (resolve env.cwd imagedbPath) =
        Except.ok Node.dir ∧
      stat (storeInImagedb env img manifest w).1.fs (resolve env.cwd layerdbPath) =
        Except.ok Node.dir ∧
      stat (storeInImagedb env img manifest w).1.fs (imageDir env.cwd digest.Hex) =
        Except.ok Node.dir ∧
      stat (storeInImagedb env img manifest w).1.fs
        (imageDir env.cwd digest.Hex ++ ["config.json"]) = Except.ok (Node.file ic) ∧
      stat (storeInImagedb env img manifest w).1.fs
        (imageDir env.cwd digest.Hex ++ ["manifest.json"]) = Except.ok (Node.file im) ∧
      ∀ q, lookup (storeInImagedb env img manifest w).1.fs q ≠ lookup w.fs q →
        (q <+: resolve env.cwd imagedbPath ∨ q <+: resolve env.cwd layerdbPath ∨
          q <+: imageDir env.cwd digest.Hex) ∧
            lookup (storeInImagedb env img manifest w).1.fs q = some Node.dir ∨
        q = imageDir env.cwd digest.Hex ++ ["config.json"] ∨
        q = imageDir env.cwd digest.Hex ++ ["manifest.json"] := by
  obtain ⟨digest, config, ic, im, hd, hc, hic, him, h1, h2, _, h4, h5, h7, hfs, _⟩ :=
    storeInImagedb_ok_inv env img manifest w hok
  refine ⟨digest, config, ic, im, hd, hc, hic, him, ?_⟩
  rw [hfs]
  simp only [imageFile_config, imageFile_manifest] at h5 h7 ⊢
  -- the chain of filesystems
  have e1 : Ext w.fs (mkdirAll w.fs (resolve env.cwd imagedbPath)).1 := mkdirAll_ext _ _
  have e2 : Ext (mkdirAll w.fs (resolve env.cwd imagedbPath)).1 (rootsMade env.cwd w.fs) :=
    mkdirAll_ext _ _
  have e4 : Ext (rootsMade env.cwd w.fs) (imageDirMade env.cwd digest.Hex w.fs) :=
    mkdirAll_ext _ _
  have s1 : stat (mkdirAll w.fs (resolve env.cwd imagedbPath)).1 (resolve env.cwd imagedbPath) =
      Except.ok Node.dir := mkdirAll_stat _ _ h1
  have s2 : stat (rootsMade env.cwd w.fs) (resolve env.cwd layerdbPath) = Except.ok Node.dir :=
    mkdirAll_stat _ _ h2
  have s4 : stat (imageDirMade env.cwd digest.Hex w.fs) (imageDir env.cwd digest.Hex) =
      Except.ok Node.dir := mkdirAll_stat _ _ h4
  have hcfg0 : imageDir env.cwd digest.Hex ++ ["config.json"] ≠ [] := by simp
  have hmf0 : imageDir env.cwd digest.Hex ++ ["manifest.json"] ≠ [] := by simp
  have hne : imageDir env.cwd digest.Hex ++ ["config.json"] ≠
      imageDir env.cwd digest.Hex ++ ["manifest.json"] := by simp
  have c5 : lookup (imageDirMade env.cwd digest.Hex w.fs)
      (imageDir env.cwd digest.Hex ++ ["config.json"]) ≠ some Node.dir := by
    rcases create_cases (imageDirMade env.cwd digest.Hex w.fs)
      (imageDir env.cwd digest.Hex ++ ["config.json"]) with ⟨_, _, _, _, x⟩ | ⟨x, _⟩
    · exact x
    · exact absurd h5 x
  have c7 : lookup ((imageDir env.cwd digest.Hex ++ ["config.json"], Node.file ic) ::
      (imageDir env.cwd digest.Hex ++ ["config.json"], Node.file []) ::
      imageDirMade env.cwd digest.Hex w.fs)
      (imageDir env.cwd digest.Hex ++ ["manifest.json"]) ≠ some Node.dir := by
    rcases create_cases _ (imageDir env.cwd digest.Hex ++ ["manifest.json"]) with
      ⟨_, _, _, _, x⟩ | ⟨x, _⟩
    · exact x
    · exact absurd h7 x
  have e6 : Ext (imageDirMade env.cwd digest.Hex w.fs)
      ((imageDir env.cwd digest.Hex ++ ["config.json"], Node.file ic) ::
      (imageDir env.cwd digest.Hex ++ ["config.json"], Node.file []) ::
      imageDirMade env.cwd digest.Hex w.fs) :=
    Ext.trans (ext_cons_file _ _ [] c5) (ext_cons_file _ _ ic (by simp [lookup_cons]))
  have e8 : Ext ((imageDir env.cwd digest.Hex ++ ["config.json"], Node.file ic) ::
      (imageDir env.cwd digest.Hex ++ ["config.json"], Node.file []) ::
      imageDirMade env.cwd digest.Hex w.fs)
      ((imageDir env.cwd digest.Hex ++ ["manifest.json"], Node.file im) ::
      (imageDir env.cwd digest.Hex ++ ["manifest.json"], Node.file []) ::
      (imageDir env.cwd digest.Hex ++ ["config.json"], Node.file ic) ::
      (imageDir env.cwd digest.Hex ++ ["config.json"], Node.file []) ::
      imageDirMade env.cwd digest.Hex w.fs) :=
    Ext.trans (ext_cons_file _ _ [] c7) (ext_cons_file _ _ im (by simp [lookup_cons]))
  have e48 := Ext.trans e6 e8
  have sD := stat_dir_of_ext e48 _ s4
  refine ⟨Ext.trans e1 (Ext.trans e2 (Ext.trans e4 e48)),
    stat_dir_of_ext (Ext.trans e2 (Ext.trans e4 e48)) _ s1,
    stat_dir_of_ext (Ext.trans e4 e48) _ s2, sD, ?_, ?_, ?_⟩
  · rw [stat_snoc_ok_iff]
    refine ⟨sD, ?_⟩
    rw [lookup_cons_cons_file, lookup_cons_cons_file]
    simp [hne.symm]
  · rw [stat_snoc_ok_iff]
    refine ⟨sD, ?_⟩
    rw [lookup_cons_cons_file]
    simp
  · intro q hq
    rw [lookup_cons_cons_file, lookup_cons_cons_file] at hq ⊢
    by_cases h0 : q = []
    · subst h0; simp [lookup_nil] at hq
    by_cases hqm : imageDir env.cwd digest.Hex ++ ["manifest.json"] = q
    · exact Or.inr (Or.inr hqm.symm)
    by_cases hqc : imageDir env.cwd digest.Hex ++ ["config.json"] = q
    · exact Or.inr (Or.inl hqc.symm)
    simp only [h0, hqm, hqc, if_false] at hq ⊢
    left
    by_cases c4 : lookup (imageDirMade env.cwd digest.Hex w.fs) q =
        lookup (rootsMade env.cwd w.fs) q
    · rw [c4] at hq ⊢
      by_cases c2 : lookup (rootsMade env.cwd w.fs) q =
          lookup (mkdirAll w.fs (resolve env.cwd imagedbPath)).1 q
      · rw [c2] at hq ⊢
        obtain ⟨a, b⟩ := mkdirAll_frame _ _ _ hq
        exact ⟨Or.inl a, b⟩
      · obtain ⟨a, b⟩ := mkdirAll_frame _ _ _ c2
        exact ⟨Or.inr (Or.inl a), b⟩
    · obtain ⟨a, b⟩ := mkdirAll_frame _ _ _ c4
      exact ⟨Or.inr (Or.inr a), b⟩

theorem stat_prefix_dir (fs : FS) (p : Path) (h : stat fs p = Except.ok Node.dir) :
    ∀ q, q <+: p → lookup fs q = some Node.dir := by
  induction p using List.reverseRecOn with
  | nil =>
    intro q hq
    rw [List.prefix_nil] at hq
    subst hq
    exact lookup_nil fs
  | append_singleton p c ih =>
    intro q hq
    rcases List.prefix_concat_iff.1 hq with h1 | h1
    · subst h1
      exact stat_ok_lookup fs _ _ h
    · exact ih ((stat_snoc_ok_iff fs p c _).1 h).1 q h1

theorem stat_dropLast (fs : FS) (p : Path) (h : stat fs p = Except.ok Node.dir) :
    stat fs p.dropLast = Except.ok Node.dir := by
  rcases List.eq_nil_or_concat p with hp | ⟨q, c, hp⟩
  · subst hp; exact h
  · rw [List.concat_eq_append] at hp
    subst hp
    rw [List.dropLast_concat]
    exact ((stat_snoc_ok_iff fs q c _).1 h).1

theorem find_mem (fs : FS) (p : Path) (n : Node) (h : find fs p = some n) : (p, n) ∈ fs := by
  induction fs with
  | nil => simp [find] at h
  | cons e rest ih =>
    obtain ⟨q, m⟩ := e
    rw [find] at h
    by_cases hq : q = p
    · rw [if_pos hq] at h
      cases h
      rw [hq]
      exact List.mem_cons_self _ _
    · rw [if_neg hq] at h
      exact List.mem_cons_of_mem _ (ih h)

theorem wellFormed_parent (fs : FS) (hwf : WellFormed fs) (p : Path) (c : String)
    (h : lookup fs (p ++ [c]) ≠ none) : lookup fs p = some Node.dir := by
  cases hl : lookup fs (p ++ [c]) with
  | none => exact absurd hl h
  | some n =>
    have hf : find fs (p ++ [c]) = some n := by
      simpa [lookup] using hl
    have := hwf _ (find_mem fs _ n hf)
    simpa using this

theorem storeInImagedb_exit (env : Env) (img : Image) (manifest : Manifest) (w : World)
    (c : Nat) (h : (storeInImagedb env img manifest w).2 = Outcome.exit c) : c = 0 := by
  unfold storeInImagedb at h
  repeat' split at h
  all_goals first
    | (simp only [Outcome.exit.injEq] at h; exact h.symm)
    | (simp only [reduceCtorEq] at h)

theorem storeLayers_no_exit (env : Env) (img : Image) (layers : List Descriptor) :
    ∀ (w : World) (c : Nat), (storeLayers env img w layers).2 ≠ Outcome.exit c := by
  induction layers with
  | nil => intro w c; simp [storeLayers]
  | cons layer rest ih =>
    intro w c
    rw [storeLayers]
    cases hs : storeInLayerdb env layer img w with
    | mk w1 o =>
      cases o with
      | none => exact ih w1 c
      | some e => simp

theorem action_exit (env : Env) (w : World) (args : List String) (c : Nat)
    (h : (PullCommand.Action env w args).2 = Outcome.exit c) : c = 0 := by
  unfold PullCommand.Action at h
  match hp : env.parseReference (args.getD 0 "") with
  | Except.error e => rw [hp] at h; simp at h
  | Except.ok imageRef =>
    rw [hp] at h
    simp only at h
    match hr : env.remoteImage imageRef with
    | Except.error e => rw [hr] at h; simp at h
    | Except.ok img =>
      rw [hr] at h
      simp only at h
      match hm : img.Manifest with
      | Except.error e => rw [hm] at h; simp at h
      | Except.ok manifest =>
        rw [hm] at h
        simp only at h
        cases hs : storeInImagedb env img manifest
            (println w ("Pulling image:  " ++ imageRef.Name)) with
        | mk w1 o =>
          rw [hs] at h
          cases o with
          | ok => exact absurd h (storeLayers_no_exit env img _ w1 c)
          | err e => simp at h
          | exit code =>
            simp only [Outcome.exit.injEq] at h
            subst h
            exact storeInImagedb_exit env img manifest _ code (by rw [hs])

/-! ## What the layer store may touch -/

theorem mkdirAll_changed (fs : FS) (p q : Path)
    (h : lookup (mkdirAll fs p).1 q ≠ lookup fs q) :
    q <+: p ∧ lookup fs q = none ∧ lookup (mkdirAll fs p).1 q = some Node.dir := by
  obtain ⟨h1, h2⟩ := mkdirAll_frame fs p q h
  refine ⟨h1, ?_, h2⟩
  cases hl : lookup fs q with
  | none => rfl
  | some n => exact absurd (by rw [mkdirAll_mono fs p q n hl, hl]) h

/-- The body of the loop ends well on an entry exactly when the system call on
its joined path does (and, for a regular file, the body is read to its end):
the name itself is never a reason for an error. -/
theorem unpackEntry_ok_iff (cwd : Path) (hex : String) (w : World) (e : TarEntry) :
    (unpackEntry cwd hex w e).2 = none ↔
      (e.Typeflag = TypeDir → (mkdirAll w.fs (entryPath cwd hex e.Name)).2 = none) ∧
      (e.Typeflag = TypeReg →
        (create w.fs (entryPath cwd hex e.Name)).2 = none ∧ e.bodyErr = none) := by
  by_cases h1 : e.Typeflag = TypeDir
  · have hne : e.Typeflag ≠ TypeReg := by rw [h1]; exact typeDir_ne_typeReg
    rw [(unpackEntry_dir cwd hex w e h1).2]
    exact ⟨fun h => ⟨fun _ => h, fun hr => absurd hr hne⟩, fun h => h.1 h1⟩
  · by_cases h2 : e.Typeflag = TypeReg
    · cases hc : (create w.fs (entryPath cwd hex e.Name)).2 with
      | none =>
        rw [unpackEntry_reg_ok cwd hex w e h2 hc]
        simp only [Option.map_eq_none']
        exact ⟨fun h => ⟨fun hd => absurd hd h1, fun _ => ⟨trivial, h⟩⟩, fun h => (h.2 h2).2⟩
      | some en =>
        rw [unpackEntry_reg_fail cwd hex w e h2 en hc]
        constructor
        · intro h; cases h
        · intro h
          have := (h.2 h2).1
          cases this
    · rw [unpackEntry_other cwd hex w e h1 h2]
      exact ⟨fun _ => ⟨fun hd => absurd hd h1, fun hr => absurd hr h2⟩, fun _ => rfl⟩

/-- When every directory and regular-file entry of the stream is written at or
below the layer directory, a path whose entry `storeInLayerdb` changes is either
the layer directory or an ancestor of it that was missing and now is a
directory, or it lies strictly below the layer directory. -/
theorem storeInLayerdb_inside (env : Env) (layer : Descriptor) (img : Image) (w : World)
    (hin : ∀ l s, img.LayerByDigest layer.Digest = Except.ok l →
      l.Uncompressed = Except.ok s → ∀ e ∈ s.entries,
        e.Typeflag = TypeDir ∨ e.Typeflag = TypeReg →
        layerDir env.cwd layer.Digest.Hex <+: entryPath env.cwd layer.Digest.Hex e.Name)
    (q : Path) (hq : lookup (storeInLayerdb env layer img w).1.fs q ≠ lookup w.fs q) :
    (q <+: layerDir env.cwd layer.Digest.Hex ∧ lookup w.fs q = none ∧
        lookup (storeInLayerdb env layer img w).1.fs q = some Node.dir) ∨
      (layerDir env.cwd layer.Digest.Hex <+: q ∧ q ≠ layerDir env.cwd layer.Digest.Hex) := by
  match hs : stat w.fs (layerDir env.cwd layer.Digest.Hex) with
  | Except.ok n =>
    rw [storeInLayerdb_hit env layer img w n hs] at hq
    exact absurd rfl hq
  | Except.error e =>
    by_cases he : e = Errno.ENOENT
    · subst he
      rw [storeInLayerdb_miss env layer img w hs] at hq ⊢
      rcases extractLayer_cases env layer img (afterCheck env layer w) with
        ⟨e, h⟩ | ⟨h, ⟨e, hl⟩ | ⟨l, e, hl, hu⟩ | ⟨l, s, hl, hu⟩⟩
      · rw [extractLayer_mkdir_fail env layer img (afterCheck env layer w) e h] at hq ⊢
        exact Or.inl (mkdirAll_changed w.fs _ q hq)
      · rw [extractLayer_lookup_fail env layer img (afterCheck env layer w) e h hl] at hq ⊢
        exact Or.inl (mkdirAll_changed w.fs _ q hq)
      · rw [extractLayer_stream_fail env layer img (afterCheck env layer w) l e h hl hu] at hq ⊢
        exact Or.inl (mkdirAll_changed w.fs _ q hq)
      · rw [extractLayer_loop env layer img (afterCheck env layer w) l s h hl hu,
          loop_tail_fs] at hq ⊢
        have hext := unpackLoop_ext env.cwd layer.Digest.Hex s.readErr s.entries
          { fs := (mkdirAll (afterCheck env layer w).fs (layerDir env.cwd layer.Digest.Hex)).1,
            trace := (afterCheck env layer w).trace ++
              [Event.mkdirAll (layerDir env.cwd layer.Digest.Hex),
               Event.layerByDigest layer.Digest.Hex,
               Event.uncompressed layer.Digest.Hex] }
        have hdir : stat (mkdirAll w.fs (layerDir env.cwd layer.Digest.Hex)).1
            (layerDir env.cwd layer.Digest.Hex) = Except.ok Node.dir := mkdirAll_stat _ _ h
        by_cases hm : lookup (mkdirAll w.fs (layerDir env.cwd layer.Digest.Hex)).1 q =
            lookup w.fs q
        · rw [← hm] at hq
          have hstay : q <+: layerDir env.cwd layer.Digest.Hex → False := by
            intro hpre
            have hl1 := stat_prefix_dir _ _ hdir q hpre
            have hl2 := (hext q).1 hl1
            exact hq (by rw [hl2]; exact hl1.symm)
          obtain ⟨x, hx, hkind, hpre⟩ := unpackLoop_frame env.cwd layer.Digest.Hex s.readErr
            s.entries q
            { fs := (mkdirAll (afterCheck env layer w).fs (layerDir env.cwd layer.Digest.Hex)).1,
              trace := (afterCheck env layer w).trace ++
                [Event.mkdirAll (layerDir env.cwd layer.Digest.Hex),
                 Event.layerByDigest layer.Digest.Hex,
                 Event.uncompressed layer.Digest.Hex] } hq
          rcases List.prefix_or_prefix_of_prefix hpre (hin l s hl hu x hx hkind) with h1 | h1
          · exact absurd h1 hstay
          · by_cases heq : q = layerDir env.cwd layer.Digest.Hex
            · exact absurd (by rw [heq]) hstay
            · exact Or.inr ⟨h1, heq⟩
        · obtain ⟨c1, c2, c3⟩ := mkdirAll_changed w.fs _ q hm
          exact Or.inl ⟨c1, c2, (hext q).1 c3⟩
    · rw [storeInLayerdb_checkfail env layer img w e hs he] at hq
      exact absurd rfl hq

/-! ## The loop over the layers of a manifest -/

theorem storeLayers_cons_ok (env : Env) (img : Image) (w : World) (layer : Descriptor)
    (rest : List Descriptor) (h : (storeInLayerdb env layer img w).2 = none) :
    storeLayers env img w (layer :: rest) =
      storeLayers env img (storeInLayerdb env layer img w).1 rest := by
  rw [storeLayers]
  cases hs : storeInLayerdb env layer img w with
  | mk w1 o =>
    rw [hs] at h
    simp only at h
    subst h
    rfl

theorem storeLayers_ok_head (env : Env) (img : Image) (w : World) (layer : Descriptor)
    (rest : List Descriptor)
    (h : (storeLayers env img w (layer :: rest)).2 = Outcome.ok) :
    (storeInLayerdb env layer img w).2 = none := by
  rw [storeLayers] at h
  cases hs : storeInLayerdb env layer img w with
  | mk w1 o =>
    rw [hs] at h
    cases o with
    | none => rfl
    | some e => simp at h

theorem layerDir_snoc (cwd : Path) (x : String) (hx : IsName x) :
    layerDir cwd x = resolve cwd layerdbPath ++ [x] := by
  rw [layerDir_of_name cwd x hx]
  simp [layerdbPath, resolve, resolveStep]

theorem stat_layerDir_absent (fs : FS) (cwd : Path) (x : String) (hx : IsName x)
    (hroot : stat fs (resolve cwd layerdbPath) = Except.ok Node.dir)
    (habs : lookup fs (layerDir cwd x) = none) :
    stat fs (layerDir cwd x) = Except.error Errno.ENOENT := by
  rw [layerDir_snoc cwd x hx] at habs ⊢
  rw [stat_snoc, hroot]
  simp [habs]

theorem layerDir_not_comparable (cwd : Path) (x y : String) (hx : IsName x) (hy : IsName y)
    (hne : x ≠ y) :
    ¬ (layerDir cwd x <+: layerDir cwd y) ∧ ¬ (layerDir cwd y <+: layerDir cwd x) := by
  rw [layerDir_of_name cwd x hx, layerDir_of_name cwd y hy]
  constructor
  · intro h
    have := h.eq_of_length (by simp)
    simp at this
    exact hne this
  · intro h
    have := h.eq_of_length (by simp)
    simp at this
    exact hne this.symm

/-- Once the layer directory of `x` is a directory it stays one through the
loop, and the loop asks for no stream of `x`. -/
theorem storeLayers_done (env : Env) (img : Image) (x : String) (layers : List Descriptor) :
    ∀ w : World, stat w.fs (layerDir env.cwd x) = Except.ok Node.dir →
      stat (storeLayers env img w layers).1.fs (layerDir env.cwd x) = Except.ok Node.dir ∧
      List.count (Event.uncompressed x) (storeLayers env img w layers).1.trace =
        List.count (Event.uncompressed x) w.trace := by
  induction layers with
  | nil => intro w h; exact ⟨h, rfl⟩
  | cons layer rest ih =>
    intro w h
    have hd1 := stat_dir_of_ext (storeInLayerdb_ext env layer img w) _ h
    have hc1 : List.count (Event.uncompressed x) (storeInLayerdb env layer img w).1.trace =
        List.count (Event.uncompressed x) w.trace := by
      by_cases hx : x = layer.Digest.Hex
      · subst hx
        exact storeInLayerdb_count_hit env layer img w _ _ h
      · exact storeInLayerdb_count_other env layer img w x hx
    cases ho : (storeInLayerdb env layer img w).2 with
    | none =>
      rw [storeLayers_cons_ok env img w layer rest ho]
      obtain ⟨a, b⟩ := ih _ hd1
      exact ⟨a, by rw [b, hc1]⟩
    | some e =>
      rw [storeLayers]
      cases hs : storeInLayerdb env layer img w with
      | mk w1 o =>
        rw [hs] at ho hd1 hc1
        simp only at ho
        subst ho
        exact ⟨hd1, hc1⟩

/-- From a world where the layer directory of `x` is missing below an existing
layer store, a loop that ends well over layers with ordinary digests and
archives without `..` leaves the directory made and has asked for the stream
once if `x` is among the digests, and has left it missing and asked for nothing
otherwise. -/
theorem storeLayers_first (env : Env) (img : Image) (x : String) (hx : IsName x)
    (layers : List Descriptor) :
    ∀ w : World,
      (∀ d ∈ layers, IsName d.Digest.Hex) →
      (∀ d ∈ layers, ∀ l s, img.LayerByDigest d.Digest = Except.ok l →
        l.Uncompressed = Except.ok s → ∀ e ∈ s.entries, ".." ∉ splitPath e.Name) →
      stat w.fs (resolve env.cwd layerdbPath) = Except.ok Node.dir →
      lookup w.fs (layerDir env.cwd x) = none →
      (storeLayers env img w layers).2 = Outcome.ok →
      ((∃ d ∈ layers, d.Digest.Hex = x) →
        stat (storeLayers env img w layers).1.fs (layerDir env.cwd x) = Except.ok Node.dir ∧
        List.count (Event.uncompressed x) (storeLayers env img w layers).1.trace =
          List.count (Event.uncompressed x) w.trace + 1) ∧
      ((¬ ∃ d ∈ layers, d.Digest.Hex = x) →
        lookup (storeLayers env img w layers).1.fs (layerDir env.cwd x) = none ∧
        List.count (Event.uncompressed x) (storeLayers env img w layers).1.trace =
          List.count (Event.uncompressed x) w.trace) := by
  induction layers with
  | nil =>
    intro w _ _ _ habs _
    exact ⟨fun ⟨d, hd, _⟩ => (by cases hd), fun _ => ⟨habs, rfl⟩⟩
  | cons layer rest ih =>
    intro w hnames hnd hroot habs hok
    have ho := storeLayers_ok_head env img w layer rest hok
    rw [storeLayers_cons_ok env img w layer rest ho] at hok ⊢
    have hroot1 := stat_dir_of_ext (storeInLayerdb_ext env layer img w) _ hroot
    by_cases hl : layer.Digest.Hex = x
    · -- this is the first call for `x`
      have hs : stat w.fs (layerDir env.cwd layer.Digest.Hex) = Except.error Errno.ENOENT := by
        rw [hl]
        exact stat_layerDir_absent w.fs env.cwd x hx hroot habs
      have hmk := storeInLayerdb_mkdir_ok env layer img w hs ho
      have hd1 : stat (storeInLayerdb env layer img w).1.fs (layerDir env.cwd x) =
          Except.ok Node.dir := by
        rw [storeInLayerdb_miss env layer img w hs, ← hl]
        exact extractLayer_stat env layer img (afterCheck env layer w) hmk
      have hc1 := storeInLayerdb_count_miss env layer img w hs ho
      rw [hl] at hc1
      obtain ⟨a, b⟩ := storeLayers_done env img x rest _ hd1
      refine ⟨fun _ => ⟨a, by rw [b, hc1]⟩, fun hno => ?_⟩
      exact absurd ⟨layer, List.mem_cons_self _ _, hl⟩ hno
    · have hname := hnames layer (List.mem_cons_self _ _)
      have habs1 : lookup (storeInLayerdb env layer img w).1.fs (layerDir env.cwd x) = none := by
        by_contra hne
        have hch : lookup (storeInLayerdb env layer img w).1.fs (layerDir env.cwd x) ≠
            lookup w.fs (layerDir env.cwd x) := by rw [habs]; exact hne
        have hcmp := layerDir_not_comparable env.cwd x layer.Digest.Hex hx hname
          (fun h => hl h.symm)
        rcases storeInLayerdb_frame env layer img w
          (hnd layer (List.mem_cons_self _ _)) _ hch with h | h
        · exact hcmp.1 h
        · exact hcmp.2 h
      have hc1 := storeInLayerdb_count_other env layer img w x (fun h => hl h.symm)
      obtain ⟨a, b⟩ := ih _ (fun d hd => hnames d (List.mem_cons_of_mem _ hd))
        (fun d hd => hnd d (List.mem_cons_of_mem _ hd)) hroot1 habs1 hok
      constructor
      · rintro ⟨d, hd, hdx⟩
        rcases List.mem_cons.1 hd with rfl | hd
        · exact absurd hdx hl
        · obtain ⟨a1, a2⟩ := a ⟨d, hd, hdx⟩
          exact ⟨a1, by rw [a2, hc1]⟩
      · intro hno
        obtain ⟨b1, b2⟩ := b (fun ⟨d, hd, hdx⟩ => hno ⟨d, List.mem_cons_of_mem _ hd, hdx⟩)
        exact ⟨b1, by rw [b2, hc1]⟩

theorem storeLayers_trace (env : Env) (img : Image) (layers : List Descriptor) :
    ∀ w : World, ∃ evs, (storeLayers env img w layers).1.trace = w.trace ++ evs := by
  induction layers with
  | nil => intro w; exact ⟨[], by simp [storeLayers]⟩
  | cons layer rest ih =>
    intro w
    obtain ⟨e1, h1, _⟩ := storeInLayerdb_trace env layer img w
    cases ho : (storeInLayerdb env layer img w).2 with
    | none =>
      rw [storeLayers_cons_ok env img w layer rest ho]
      obtain ⟨e2, h2⟩ := ih (storeInLayerdb env layer img w).1
      exact ⟨e1 ++ e2, by rw [h2, h1, List.append_assoc]⟩
    | some e =>
      rw [storeLayers]
      cases hs : storeInLayerdb env layer img w with
      | mk w1 o =>
        rw [hs] at ho h1
        simp only at ho
        subst ho
        exact ⟨e1, h1⟩

/-- In a world where the layer directory of a layer of the list is a directory,
a loop that ends well reports that layer as found in cache. -/
theorem storeLayers_reports_cached (env : Env) (img : Image) (layer : Descriptor)
    (layers : List Descriptor) :
    ∀ w : World, layer ∈ layers →
      stat w.fs (layerDir env.cwd layer.Digest.Hex) = Except.ok Node.dir →
      (storeLayers env img w layers).2 = Outcome.ok →
      ∃ pre post, (storeLayers env img w layers).1.trace =
        w.trace ++ pre ++
          [Event.print ("Pulling layer:  " ++ layer.Digest.Hex),
           Event.stat (layerDir env.cwd layer.Digest.Hex),
           Event.print "Layer found in cache"] ++ post := by
  induction layers with
  | nil => intro w hm; cases hm
  | cons d rest ih =>
    intro w hm hs hok
    have ho := storeLayers_ok_head env img w d rest hok
    rw [storeLayers_cons_ok env img w d rest ho] at hok ⊢
    by_cases hd : layer = d
    · subst hd
      obtain ⟨post, hp⟩ := storeLayers_trace env img rest (storeInLayerdb env layer img w).1
      refine ⟨[], post, ?_⟩
      rw [hp, storeInLayerdb_hit env layer img w _ hs]
      simp
    · have hm1 : layer ∈ rest := by
        rcases List.mem_cons.1 hm with h | h
        · exact absurd h hd
        · exact h
      obtain ⟨e1, h1, _⟩ := storeInLayerdb_trace env d img w
      obtain ⟨pre, post, hp⟩ := ih _ hm1
        (stat_dir_of_ext (storeInLayerdb_ext env d img w) _ hs) hok
      refine ⟨e1 ++ pre, post, ?_⟩
      rw [hp, h1]
      simp [List.append_assoc]

/-- A pull action that returns nil has stored the image and then run the loop
over the layers of the manifest. -/
theorem action_ok_inv (env : Env) (w : World) (args : List String) (ref : Reference)
    (img : Image) (m : Manifest)
    (hp : env.parseReference (args.getD 0 "") = Except.ok ref)
    (hi : env.remoteImage ref = Except.ok img)
    (hm : img.Manifest = Except.ok m)
    (hok : (PullCommand.Action env w args).2 = Outcome.ok) :
    (storeInImagedb env img m (println w ("Pulling image:  " ++ ref.Name))).2 = Outcome.ok ∧
      PullCommand.Action env w args =
        storeLayers env img
          (storeInImagedb env img m (println w ("Pulling image:  " ++ ref.Name))).1
          m.Layers := by
  unfold PullCommand.Action at hok ⊢
  rw [hp] at hok ⊢
  simp only at hok ⊢
  rw [hi] at hok ⊢
  simp only at hok ⊢
  rw [hm] at hok ⊢
  simp only at hok ⊢
  cases hs : storeInImagedb env img m (println w ("Pulling image:  " ++ ref.Name)) with
  | mk w1 o =>
    rw [hs] at hok
    cases o with
    | ok => exact ⟨rfl, rfl⟩
    | err e => simp at hok
    | exit c => simp at hok

theorem imageDir_cases (cwd : Path) (hex : String) :
    imageDir cwd hex = cwd.dropLast ++ ["imagedb"] ∨ imageDir cwd hex = cwd.dropLast ∨
      imageDir cwd hex = cwd.dropLast ++ ["imagedb", hex] := by
  by_cases h1 : hex = "" ∨ hex = "."
  · left
    simp [imageDir, imagedbPath, resolve, resolveStep, h1]
  · by_cases h2 : hex = ".."
    · right; left
      simp [imageDir, imagedbPath, resolve, resolveStep, h2]
    · right; right
      simp [imageDir, imagedbPath, resolve, resolveStep, h1, h2]

theorem append_eq_append_left {l a b : List String} (h : l ++ a = l ++ b) : a = b :=
  List.append_cancel_left h

/-- A successful `storeInImagedb` leaves a missing layer directory missing and
asks for no stream. -/
theorem storeInImagedb_keeps_layer (env : Env) (img : Image) (manifest : Manifest)
    (w : World) (x : String) (hx : IsName x)
    (hok : (storeInImagedb env img manifest w).2 = Outcome.ok)
    (habs : lookup w.fs (layerDir env.cwd x) = none) :
    lookup (storeInImagedb env img manifest w).1.fs (layerDir env.cwd x) = none ∧
      List.count (Event.uncompressed x) (storeInImagedb env img manifest w).1.trace =
        List.count (Event.uncompressed x) w.trace ∧
      stat (storeInImagedb env img manifest w).1.fs (resolve env.cwd layerdbPath) =
        Except.ok Node.dir ∧
      Ext w.fs (storeInImagedb env img manifest w).1.fs := by
  obtain ⟨digest, _, _, _, _, _, _, _, hext, _, s2, _, _, _, hframe⟩ :=
    storeInImagedb_ok_facts env img manifest w hok
  obtain ⟨d1, _, ic, im, _, _, _, _, _, _, _, _, _, _, _, htr⟩ :=
    storeInImagedb_ok_inv env img manifest w hok
  refine ⟨?_, by rw [htr]; simp, s2, hext⟩
  by_contra hne
  have hch : lookup (storeInImagedb env img manifest w).1.fs (layerDir env.cwd x) ≠
      lookup w.fs (layerDir env.cwd x) := by rw [habs]; exact hne
  have hA : resolve env.cwd imagedbPath = env.cwd.dropLast ++ ["imagedb"] := by
    simp [imagedbPath, resolve, resolveStep]
  have hB : resolve env.cwd layerdbPath = env.cwd.dropLast ++ ["layerdb"] := by
    simp [layerdbPath, resolve, resolveStep]
  have hlen : ∀ l : List String, layerDir env.cwd x <+: l →
      env.cwd.dropLast.length + 2 ≤ l.length := by
    intro l h
    have := h.length_le
    rw [layerDir_of_name env.cwd x hx] at this
    simpa using this
  rcases hframe _ hch with ⟨h | h | h, _⟩ | h | h
  · have := hlen _ h
    rw [hA] at this
    simp at this
  · have := hlen _ h
    rw [hB] at this
    simp at this
  · rcases imageDir_cases env.cwd digest.Hex with hc | hc | hc
    · have := hlen _ h
      rw [hc] at this
      simp at this
    · have := hlen _ h
      rw [hc] at this
      simp at this
    · rw [hc, layerDir_of_name env.cwd x hx] at h
      have := h.eq_of_length (by simp)
      have := append_eq_append_left this
      simp at this
  · rw [layerDir_of_name env.cwd x hx] at h
    rcases imageDir_cases env.cwd digest.Hex with hc | hc | hc
    · rw [hc, List.append_assoc] at h
      have := append_eq_append_left h
      simp at this
    · rw [hc] at h
      have := append_eq_append_left h
      simp at this
    · rw [hc, List.append_assoc] at h
      have := append_eq_append_left h
      simp at this
  · rw [layerDir_of_name env.cwd x hx] at h
    rcases imageDir_cases env.cwd digest.Hex with hc | hc | hc
    · rw [hc, List.append_assoc] at h
      have := append_eq_append_left h
      simp at this
    · rw [hc] at h
      have := append_eq_append_left h
      simp at this
    · rw [hc, List.append_assoc] at h
      have := append_eq_append_left h
      simp at this

/-! ## The layer store: the claims -/

/-- C3: when the existence check of the layer directory succeeds (whatever the
node found there and whatever lies below it), `storeInLayerdb` returns nil, the
filesystem is the one before the call, and the call adds exactly three events
to the trace: the line `Pulling layer:`, the `Stat`, and the line
`Layer found in cache`; the image handle is asked for nothing. -/
theorem storeInLayerdb_cache_hit (env : Env) (layer : Descriptor) (img : Image) (w : World)
    (n : Node) (h : stat w.fs (layerDir env.cwd layer.Digest.Hex) = Except.ok n) :
    (storeInLayerdb env layer img w).2 = none ∧
      (storeInLayerdb env layer img w).1.fs = w.fs ∧
      newEvents w (storeInLayerdb env layer img w).1 =
        [Event.print ("Pulling layer:  " ++ layer.Digest.Hex),
         Event.stat (layerDir env.cwd layer.Digest.Hex),
         Event.print "Layer found in cache"] := by
  rw [storeInLayerdb_hit env layer img w n h]
  simp [newEvents]

theorem storeInLayerdb_cache_hit_witness :
    stat fsCached (layerDir cwdEx hexAbc) = Except.ok Node.dir ∧
      (storeInLayerdb (envOf (imageOf streamAB)) layerAbc (imageOf streamAB)
          { fs := fsCached, trace := [] }).2 = none ∧
      (storeInLayerdb (envOf (imageOf streamAB)) layerAbc (imageOf streamAB)
          { fs := fsCached, trace := [] }).1.fs = fsCached :=
  ⟨by decide,
   (storeInLayerdb_cache_hit (envOf (imageOf streamAB)) layerAbc (imageOf streamAB)
      { fs := fsCached, trace := [] } Node.dir (by decide)).1,
   (storeInLayerdb_cache_hit (envOf (imageOf streamAB)) layerAbc (imageOf streamAB)
      { fs := fsCached, trace := [] } Node.dir (by decide)).2.1⟩

/-- C7: when the existence check of the layer directory fails with an error
other than not-found, `storeInLayerdb` returns the error
`error checking layer cache`, leaves the filesystem as it was and adds only the
line `Pulling layer:` and the `Stat` to the trace (no `MkdirAll`, no request to
the image handle); and, whatever the check answers, the extraction block is
entered (its first call, the `MkdirAll` of the layer directory, is among
the new events) exactly when the check fails with not-found. -/
theorem storeInLayerdb_check_failure (env : Env) (layer : Descriptor) (img : Image)
    (w : World) :
    (∀ e, stat w.fs (layerDir env.cwd layer.Digest.Hex) = Except.error e →
      e ≠ Errno.ENOENT →
      (storeInLayerdb env layer img w).2 =
          some (Error.wrap "error checking layer cache" (Error.errno e)) ∧
        (storeInLayerdb env layer img w).1.fs = w.fs ∧
        newEvents w (storeInLayerdb env layer img w).1 =
          [Event.print ("Pulling layer:  " ++ layer.Digest.Hex),
           Event.stat (layerDir env.cwd layer.Digest.Hex)]) ∧
    (Event.mkdirAll (layerDir env.cwd layer.Digest.Hex) ∈
        newEvents w (storeInLayerdb env layer img w).1 ↔
      stat w.fs (layerDir env.cwd layer.Digest.Hex) = Except.error Errno.ENOENT) := by
  constructor
  · intro e hs he
    rw [storeInLayerdb_checkfail env layer img w e hs he]
    simp [newEvents, afterCheck]
  · match hs : stat w.fs (layerDir env.cwd layer.Digest.Hex) with
    | Except.ok n =>
      rw [storeInLayerdb_hit env layer img w n hs]
      simp [newEvents]
    | Except.error e =>
      by_cases he : e = Errno.ENOENT
      · subst he
        rw [storeInLayerdb_miss env layer img w hs]
        obtain ⟨evs, h⟩ := extractLayer_trace_head env layer img
          (afterCheck env layer w)
        rw [newEvents, h]
        simp [afterCheck]
      · rw [storeInLayerdb_checkfail env layer img w e hs he]
        simp [newEvents, he, afterCheck]

theorem storeInLayerdb_check_failure_witness :
    stat fsBlocked (layerDir cwdEx hexAbc) = Except.error Errno.ENOTDIR ∧
      (storeInLayerdb (envOf (imageOf streamAB)) layerAbc (imageOf streamAB)
          { fs := fsBlocked, trace := [] }).2 =
        some (Error.wrap "error checking layer cache" (Error.errno Errno.ENOTDIR)) ∧
      (storeInLayerdb (envOf (imageOf streamAB)) layerAbc (imageOf streamAB)
          { fs := fsBlocked, trace := [] }).1.fs = fsBlocked :=
  ⟨by decide,
   ((storeInLayerdb_check_failure (envOf (imageOf streamAB)) layerAbc (imageOf streamAB)
      { fs := fsBlocked, trace := [] }).1 Errno.ENOTDIR (by decide) (by decide)).1,
   ((storeInLayerdb_check_failure (envOf (imageOf streamAB)) layerAbc (imageOf streamAB)
      { fs := fsBlocked, trace := [] }).1 Errno.ENOTDIR (by decide) (by decide)).2.1⟩

/-- C10: when the layer directory is missing, `storeInLayerdb` makes it, and
then the layer lookup fails, or the stream request fails, or the unpack loop
fails, the call returns an error and the layer directory is a directory
afterwards; a following `storeInLayerdb` for the same digest (with any image
handle) then returns nil, changes nothing in the filesystem and adds only the
line `Pulling layer:`, the `Stat` and the line `Layer found in cache`. -/
theorem failed_fetch_taken_for_cached (env : Env) (layer : Descriptor) (img : Image)
    (w : World)
    (habs : stat w.fs (layerDir env.cwd layer.Digest.Hex) = Except.error Errno.ENOENT)
    (hmk : (mkdirAll w.fs (layerDir env.cwd layer.Digest.Hex)).2 = none)
    (hfail : (∃ e, img.LayerByDigest layer.Digest = Except.error e) ∨
      (∃ l e, img.LayerByDigest layer.Digest = Except.ok l ∧
        l.Uncompressed = Except.error e) ∨
      (∃ l s, img.LayerByDigest layer.Digest = Except.ok l ∧
        l.Uncompressed = Except.ok s ∧
        (unpackLoop env.cwd layer.Digest.Hex s.readErr (loopStart env layer w)
          s.entries).2 ≠ none)) :
    (storeInLayerdb env layer img w).2 ≠ none ∧
      stat (storeInLayerdb env layer img w).1.fs (layerDir env.cwd layer.Digest.Hex) =
        Except.ok Node.dir ∧
      ∀ img2 : Image,
        (storeInLayerdb env layer img2 (storeInLayerdb env layer img w).1).2 = none ∧
        (storeInLayerdb env layer img2 (storeInLayerdb env layer img w).1).1.fs =
          (storeInLayerdb env layer img w).1.fs ∧
        newEvents (storeInLayerdb env layer img w).1
            (storeInLayerdb env layer img2 (storeInLayerdb env layer img w).1).1 =
          [Event.print ("Pulling layer:  " ++ layer.Digest.Hex),
           Event.stat (layerDir env.cwd layer.Digest.Hex),
           Event.print "Layer found in cache"] := by
  have hstat : stat (storeInLayerdb env layer img w).1.fs
      (layerDir env.cwd layer.Digest.Hex) = Except.ok Node.dir := by
    rw [storeInLayerdb_miss env layer img w habs]
    exact extractLayer_stat env layer img
      (afterCheck env layer w) hmk
  refine ⟨?_, hstat, fun img2 => ?_⟩
  · rcases hfail with ⟨e, hl⟩ | ⟨l, e, hl, hu⟩ | ⟨l, s, hl, hu, hloop⟩
    · rw [storeInLayerdb_miss env layer img w habs,
        extractLayer_lookup_fail env layer img (afterCheck env layer w) e hmk hl]
      simp
    · rw [storeInLayerdb_miss env layer img w habs,
        extractLayer_stream_fail env layer img (afterCheck env layer w) l e hmk hl hu]
      simp
    · rw [storeInLayerdb_loop env layer img w l s habs hmk hl hu, loop_tail_err]
      exact hloop
  · rw [storeInLayerdb_hit env layer img2 _ Node.dir hstat]
    simp [newEvents]

theorem failed_fetch_taken_for_cached_witness :
    (storeInLayerdb (envOf (imageOf streamTwice)) layerAbc (imageOf streamTwice)
        freshWorld).2 ≠ none ∧
      stat (storeInLayerdb (envOf (imageOf streamTwice)) layerAbc (imageOf streamTwice)
        freshWorld).1.fs (layerDir cwdEx hexAbc) = Except.ok Node.dir :=
  ⟨(failed_fetch_taken_for_cached (envOf (imageOf streamTwice)) layerAbc
      (imageOf streamTwice) freshWorld (by decide) (by decide)
      (Or.inr (Or.inr ⟨_, streamTwice, rfl, rfl, by decide⟩))).1,
   (failed_fetch_taken_for_cached (envOf (imageOf streamTwice)) layerAbc
      (imageOf streamTwice) freshWorld (by decide) (by decide)
      (Or.inr (Or.inr ⟨_, streamTwice, rfl, rfl, by decide⟩))).2.1⟩

/-- C2: when the layer directory is missing, the image handle serves the stream
`s` and `storeInLayerdb` returns nil, then for every entry of `s` of type
directory the path `filepath.Join(layerdbPath, digest, name)` resolves to a
directory, and for every entry of type regular file it resolves to a regular
file whose content is the body of the last regular-file entry of `s` written to
that path. -/
theorem storeInLayerdb_complete (env : Env) (layer : Descriptor) (img : Image) (w : World)
    (l : Layer) (s : TarStream)
    (habs : stat w.fs (layerDir env.cwd layer.Digest.Hex) = Except.error Errno.ENOENT)
    (hl : img.LayerByDigest layer.Digest = Except.ok l)
    (hu : l.Uncompressed = Except.ok s)
    (hok : (storeInLayerdb env layer img w).2 = none) :
    ∀ e ∈ s.entries,
      (e.Typeflag = TypeDir →
        stat (storeInLayerdb env layer img w).1.fs
          (entryPath env.cwd layer.Digest.Hex e.Name) = Except.ok Node.dir) ∧
      (e.Typeflag = TypeReg →
        ∃ b, lastRegBody env.cwd layer.Digest.Hex s.entries
              (entryPath env.cwd layer.Digest.Hex e.Name) = some b ∧
          stat (storeInLayerdb env layer img w).1.fs
            (entryPath env.cwd layer.Digest.Hex e.Name) = Except.ok (Node.file b)) := by
  have hmk := storeInLayerdb_mkdir_ok env layer img w habs hok
  rw [storeInLayerdb_loop env layer img w l s habs hmk hl hu] at hok ⊢
  rw [loop_tail_err] at hok
  rw [loop_tail_fs]
  exact unpackLoop_complete env.cwd layer.Digest.Hex s.readErr s.entries _ hok

theorem storeInLayerdb_complete_witness :
    stat (storeInLayerdb (envOf (imageOf streamAB)) layerAbc (imageOf streamAB)
        freshWorld).1.fs ["home", "u", "layerdb", hexAbc, "a"] = Except.ok Node.dir ∧
      (∃ b, lastRegBody cwdEx hexAbc streamAB.entries
            ["home", "u", "layerdb", hexAbc, "a", "b.txt"] = some b ∧
        stat (storeInLayerdb (envOf (imageOf streamAB)) layerAbc (imageOf streamAB)
          freshWorld).1.fs ["home", "u", "layerdb", hexAbc, "a", "b.txt"] =
            Except.ok (Node.file b)) ∧
      lastRegBody cwdEx hexAbc streamAB.entries
        ["home", "u", "layerdb", hexAbc, "a", "b.txt"] = some helloBytes ∧
      helloBytes.length = 5 :=
  ⟨((storeInLayerdb_complete (envOf (imageOf streamAB)) layerAbc (imageOf streamAB)
      freshWorld _ streamAB (by decide) rfl rfl (by decide))
      { Name := "a/", Typeflag := TypeDir, body := [], bodyErr := none }
      (by decide)).1 rfl,
   ((storeInLayerdb_complete (envOf (imageOf streamAB)) layerAbc (imageOf streamAB)
      freshWorld _ streamAB (by decide) rfl rfl (by decide))
      { Name := "a/b.txt", Typeflag := TypeReg, body := helloBytes, bodyErr := none }
      (by decide)).2 rfl,
   by decide, by decide⟩

/-- C1, as stated, fails: on a store without the layer `abc`, the archive whose
only entry is the regular file `../../etc/passwd` is unpacked without an error,
the entry is written to `/home/u/etc/passwd`, which is outside the layer
directory `/home/u/layerdb/abc`, and the file that was there is overwritten. -/
theorem path_traversal_not_rejected :
    stat fsEtc (layerDir cwdEx hexAbc) = Except.error Errno.ENOENT ∧
      entryPath cwdEx hexAbc "../../etc/passwd" = ["home", "u", "etc", "passwd"] ∧
      ¬ (layerDir cwdEx hexAbc <+: entryPath cwdEx hexAbc "../../etc/passwd") ∧
      (storeInLayerdb (envOf (imageOf streamEscape)) layerAbc (imageOf streamEscape)
        { fs := fsEtc, trace := [] }).2 = none ∧
      lookup fsEtc ["home", "u", "etc", "passwd"] = some (Node.file [114, 111, 111, 116]) ∧
      lookup (storeInLayerdb (envOf (imageOf streamEscape)) layerAbc (imageOf streamEscape)
        { fs := fsEtc, trace := [] }).1.fs ["home", "u", "etc", "passwd"] =
          some (Node.file [120]) := by
  refine ⟨by decide, by decide, ?_, by decide, by decide, by decide⟩
  have h1 : entryPath cwdEx hexAbc "../../etc/passwd" = ["home", "u", "etc", "passwd"] := by
    decide
  have h2 : layerDir cwdEx hexAbc = ["home", "u", "layerdb", hexAbc] := by decide
  rw [h1, h2]
  decide

/-- C1, amended: `storeInLayerdb` does not check entry names.  (1) The body of
the loop ends well on an entry exactly when `MkdirAll`, or `Create` and the body
copy, end well on the path `filepath.Join(layerdbPath, digest, name)`, wherever
that path lies, and the entry then is a directory, or a file with the body of
the entry, at that path: no entry is rejected for its name.  (2) A name without
a `..` component, an absolute name included, is written at or below the layer
directory.  (3) Every directory that existed before the call still is a
directory and every regular file still is a regular file.  (4) When every
directory and regular-file entry of the stream is written at or below the layer
directory, a path whose entry the call creates or changes is the layer directory
or one of its ancestors, was missing before the call and is a directory after
it, or it lies strictly below the layer directory. -/
theorem storeInLayerdb_stays_inside (env : Env) (layer : Descriptor) (img : Image)
    (w : World) :
    (∀ (w0 : World) (e : TarEntry),
      ((unpackEntry env.cwd layer.Digest.Hex w0 e).2 = none ↔
        (e.Typeflag = TypeDir →
          (mkdirAll w0.fs (entryPath env.cwd layer.Digest.Hex e.Name)).2 = none) ∧
        (e.Typeflag = TypeReg →
          (create w0.fs (entryPath env.cwd layer.Digest.Hex e.Name)).2 = none ∧
            e.bodyErr = none)) ∧
      ((unpackEntry env.cwd layer.Digest.Hex w0 e).2 = none → e.Typeflag = TypeDir →
        stat (unpackEntry env.cwd layer.Digest.Hex w0 e).1.fs
          (entryPath env.cwd layer.Digest.Hex e.Name) = Except.ok Node.dir) ∧
      ((unpackEntry env.cwd layer.Digest.Hex w0 e).2 = none → e.Typeflag = TypeReg →
        stat (unpackEntry env.cwd layer.Digest.Hex w0 e).1.fs
          (entryPath env.cwd layer.Digest.Hex e.Name) = Except.ok (Node.file e.body))) ∧
    (∀ name : String, ".." ∉ splitPath name →
      layerDir env.cwd layer.Digest.Hex <+: entryPath env.cwd layer.Digest.Hex name) ∧
    Ext w.fs (storeInLayerdb env layer img w).1.fs ∧
    ((∀ l s, img.LayerByDigest layer.Digest = Except.ok l →
        l.Uncompressed = Except.ok s → ∀ e ∈ s.entries,
          e.Typeflag = TypeDir ∨ e.Typeflag = TypeReg →
          layerDir env.cwd layer.Digest.Hex <+: entryPath env.cwd layer.Digest.Hex e.Name) →
      ∀ q, lookup (storeInLayerdb env layer img w).1.fs q ≠ lookup w.fs q →
        (q <+: layerDir env.cwd layer.Digest.Hex ∧ lookup w.fs q = none ∧
            lookup (storeInLayerdb env layer img w).1.fs q = some Node.dir) ∨
          (layerDir env.cwd layer.Digest.Hex <+: q ∧
            q ≠ layerDir env.cwd layer.Digest.Hex)) := by
  refine ⟨fun w0 e => ⟨unpackEntry_ok_iff env.cwd layer.Digest.Hex w0 e,
      fun hok hd => unpackEntry_dir_stat env.cwd layer.Digest.Hex w0 e hd hok,
      fun hok hr => unpackEntry_reg_stat env.cwd layer.Digest.Hex w0 e hr hok⟩,
    fun name hname => ?_, storeInLayerdb_ext env layer img w,
    fun hin q hq => storeInLayerdb_inside env layer img w hin q hq⟩
  rw [entryPath_eq]
  exact resolve_no_dotdot _ _ hname

theorem storeInLayerdb_stays_inside_witness :
    (storeInLayerdb (envOf (imageOf streamAbsolute)) layerAbc (imageOf streamAbsolute)
        { fs := fsEtc, trace := [] }).2 = none ∧
      entryPath cwdEx hexAbc "/etc/passwd" = ["home", "u", "layerdb", hexAbc, "etc", "passwd"] ∧
      lookup (storeInLayerdb (envOf (imageOf streamAbsolute)) layerAbc
          (imageOf streamAbsolute) { fs := fsEtc, trace := [] }).1.fs
          ["home", "u", "layerdb", hexAbc, "etc", "passwd"] = some (Node.file [120]) ∧
      ∀ q, lookup (storeInLayerdb (envOf (imageOf streamAbsolute)) layerAbc
          (imageOf streamAbsolute) { fs := fsEtc, trace := [] }).1.fs q ≠ lookup fsEtc q →
        (q <+: layerDir cwdEx hexAbc ∧ lookup fsEtc q = none ∧
            lookup (storeInLayerdb (envOf (imageOf streamAbsolute)) layerAbc
              (imageOf streamAbsolute) { fs := fsEtc, trace := [] }).1.fs q =
                some Node.dir) ∨
          (layerDir cwdEx hexAbc <+: q ∧ q ≠ layerDir cwdEx hexAbc) :=
  ⟨by decide, by decide, by decide,
   (storeInLayerdb_stays_inside (envOf (imageOf streamAbsolute)) layerAbc
      (imageOf streamAbsolute) { fs := fsEtc, trace := [] }).2.2.2
      (by
        intro l s hl hu e he _
        cases hl
        cases hu
        have hcases : e.Name = "/etc" ∨ e.Name = "/etc/passwd" := by
          simp only [streamAbsolute, List.mem_cons, List.mem_singleton, List.not_mem_nil,
            or_false] at he
          rcases he with rfl | rfl
          · exact Or.inl rfl
          · exact Or.inr rfl
        have h1 : layerDir cwdEx hexAbc = ["home", "u", "layerdb", hexAbc] := by decide
        rcases hcases with h | h
        · rw [h]
          have h2 : entryPath cwdEx hexAbc "/etc" = ["home", "u", "layerdb", hexAbc, "etc"] := by
            decide
          show layerDir cwdEx hexAbc <+: entryPath cwdEx hexAbc "/etc"
          rw [h1, h2]
          decide
        · rw [h]
          have h2 : entryPath cwdEx hexAbc "/etc/passwd" =
              ["home", "u", "layerdb", hexAbc, "etc", "passwd"] := by decide
          show layerDir cwdEx hexAbc <+: entryPath cwdEx hexAbc "/etc/passwd"
          rw [h1, h2]
          decide)⟩

/-- C8, as stated, fails: in the archive `streamTwice` the first entry writes
the file `a` with content `hello`; the body copy of the second entry, also named
`a`, fails after `os.Create` has truncated the file; `storeInLayerdb` returns an
error and the file written for the first entry no longer has the content it had
when written. -/
theorem earlier_entry_not_kept :
    stat freshWorld.fs (layerDir cwdEx hexAbc) = Except.error Errno.ENOENT ∧
      (unpackLoop cwdEx hexAbc none (loopStart (envOf (imageOf streamTwice)) layerAbc freshWorld)
        (streamTwice.entries.take 1)).2 = none ∧
      lookup (unpackLoop cwdEx hexAbc none
        (loopStart (envOf (imageOf streamTwice)) layerAbc freshWorld)
        (streamTwice.entries.take 1)).1.fs ["home", "u", "layerdb", hexAbc, "a"] =
          some (Node.file helloBytes) ∧
      (storeInLayerdb (envOf (imageOf streamTwice)) layerAbc (imageOf streamTwice)
        freshWorld).2 =
          some (Error.wrap "error writing file" (Error.external "unexpected EOF")) ∧
      lookup (storeInLayerdb (envOf (imageOf streamTwice)) layerAbc (imageOf streamTwice)
        freshWorld).1.fs ["home", "u", "layerdb", hexAbc, "a"] = some (Node.file []) := by
  decide

/-- C8, amended: let the layer directory be missing and made, and let the
stream be `pre ++ rest` where the loop over `pre` ends well, in the world `wN`,
and the next step fails: either the stream ends there with a read error, or the
body of the loop fails on the first entry of `rest` (directory creation, file
creation or body copy).  Then `storeInLayerdb` returns an error; the world it
leaves is the one the failing step alone leaves from `wN`, so no later entry is
processed; and every object present in `wN` is still there with the same
content, except at the path of the failing entry when that entry is a regular
file (`os.Create` truncates it before the copy). -/
theorem unpack_failure_no_rollback (env : Env) (layer : Descriptor) (img : Image)
    (w : World) (l : Layer) (pre rest : List TarEntry) (re : Option Error)
    (habs : stat w.fs (layerDir env.cwd layer.Digest.Hex) = Except.error Errno.ENOENT)
    (hmk : (mkdirAll w.fs (layerDir env.cwd layer.Digest.Hex)).2 = none)
    (hl : img.LayerByDigest layer.Digest = Except.ok l)
    (hu : l.Uncompressed = Except.ok { entries := pre ++ rest, readErr := re })
    (hpre : (unpackLoop env.cwd layer.Digest.Hex none (loopStart env layer w) pre).2 = none)
    (hnext : (rest = [] ∧ re ≠ none) ∨
      ∃ h post, rest = h :: post ∧
        (unpackEntry env.cwd layer.Digest.Hex
          (unpackLoop env.cwd layer.Digest.Hex none (loopStart env layer w) pre).1 h).2 ≠
            none) :
    (storeInLayerdb env layer img w).2 ≠ none ∧
      (storeInLayerdb env layer img w).1 =
        (unpackLoop env.cwd layer.Digest.Hex re
          (unpackLoop env.cwd layer.Digest.Hex none (loopStart env layer w) pre).1
          (rest.take 1)).1 ∧
      ∀ q n,
        lookup (unpackLoop env.cwd layer.Digest.Hex none (loopStart env layer w) pre).1.fs q =
          some n →
        (∀ h ∈ rest.head?,
          ¬ (h.Typeflag = TypeReg ∧ entryPath env.cwd layer.Digest.Hex h.Name = q)) →
        lookup (storeInLayerdb env layer img w).1.fs q = some n := by
  have hrun : storeInLayerdb env layer img w =
      unpackLoop env.cwd layer.Digest.Hex re
        (unpackLoop env.cwd layer.Digest.Hex none (loopStart env layer w) pre).1
        (rest.take 1) ∧
      (unpackLoop env.cwd layer.Digest.Hex re
        (unpackLoop env.cwd layer.Digest.Hex none (loopStart env layer w) pre).1
        (rest.take 1)).2 ≠ none := by
    rw [storeInLayerdb_loop env layer img w l _ habs hmk hl hu]
    simp only
    rw [unpackLoop_append env.cwd layer.Digest.Hex re pre rest _ hpre]
    rcases hnext with ⟨h1, h2⟩ | ⟨h, post, h1, h2⟩
    · subst h1
      cases re with
      | none => exact absurd rfl h2
      | some e => simp [unpackLoop]
    · subst h1
      rw [unpackLoop_cons_err _ _ _ _ _ _ h2]
      simp only [List.take_succ_cons, List.take_zero]
      rw [unpackLoop_cons_err _ _ _ _ _ _ h2]
      cases hr : unpackEntry env.cwd layer.Digest.Hex
          (unpackLoop env.cwd layer.Digest.Hex none (loopStart env layer w) pre).1 h with
      | mk w2 o =>
        rw [hr] at h2
        cases o with
        | none => exact absurd rfl h2
        | some e => simp
  refine ⟨by rw [hrun.1]; exact hrun.2, by rw [hrun.1], fun q n hq hne => ?_⟩
  rw [hrun.1]
  refine unpackLoop_mono env.cwd layer.Digest.Hex re (rest.take 1) q n ?_ _ hq
  intro x hx
  refine hne x ?_
  cases rest with
  | nil => simp at hx
  | cons h post =>
    simp only [List.take_succ_cons, List.take_zero, List.mem_singleton] at hx
    simp [hx]

theorem unpack_failure_no_rollback_witness :
    (storeInLayerdb (envOf (imageOf streamTwice)) layerAbc (imageOf streamTwice)
        freshWorld).2 ≠ none ∧
      (storeInLayerdb (envOf (imageOf streamTwice)) layerAbc (imageOf streamTwice)
        freshWorld).1 =
        (unpackLoop cwdEx hexAbc none
          (unpackLoop cwdEx hexAbc none
            (loopStart (envOf (imageOf streamTwice)) layerAbc freshWorld)
            (streamTwice.entries.take 1)).1
          ((streamTwice.entries.drop 1).take 1)).1 :=
  ⟨(unpack_failure_no_rollback (envOf (imageOf streamTwice)) layerAbc (imageOf streamTwice)
      freshWorld _ (streamTwice.entries.take 1) (streamTwice.entries.drop 1) none
      (by decide) (by decide) rfl rfl (by decide)
      (Or.inr ⟨_, _, rfl, by decide⟩)).1,
   (unpack_failure_no_rollback (envOf (imageOf streamTwice)) layerAbc (imageOf streamTwice)
      freshWorld _ (streamTwice.entries.take 1) (streamTwice.entries.drop 1) none
      (by decide) (by decide) rfl rfl (by decide)
      (Or.inr ⟨_, _, rfl, by decide⟩)).2.1⟩

/-! ## The image store and the command: the claims -/

/-- C4: when a first `storeInImagedb` returns nil (which it only does when the
image directory was missing), a second call for an image handle with the same
digest, run in the world the first call left, takes the `Image found in cache`
branch: it ends in `os.Exit(0)`, the filesystem is the one the first call left,
and the call adds to the trace the two `MkdirAll` of the store roots, the `Stat`
of the image directory and the line `Image found in cache`, nothing else. -/
theorem storeInImagedb_idempotent (env : Env) (img img2 : Image)
    (manifest manifest2 : Manifest) (w : World) (digest : Hash)
    (hd : img.Digest = Except.ok digest) (hd2 : img2.Digest = Except.ok digest)
    (hok : (storeInImagedb env img manifest w).2 = Outcome.ok) :
    (storeInImagedb env img2 manifest2 (storeInImagedb env img manifest w).1).2 =
        Outcome.exit 0 ∧
      (storeInImagedb env img2 manifest2 (storeInImagedb env img manifest w).1).1.fs =
        (storeInImagedb env img manifest w).1.fs ∧
      newEvents (storeInImagedb env img manifest w).1
          (storeInImagedb env img2 manifest2 (storeInImagedb env img manifest w).1).1 =
        [Event.mkdirAll (resolve env.cwd imagedbPath),
         Event.mkdirAll (resolve env.cwd layerdbPath),
         Event.stat (imageDir env.cwd digest.Hex),
         Event.print "Image found in cache"] := by
  obtain ⟨d1, _, _, _, hd1, _, _, _, _, s1, s2, s3, _⟩ :=
    storeInImagedb_ok_facts env img manifest w hok
  rw [hd] at hd1
  cases hd1
  rw [storeInImagedb_hit env img2 manifest2 _ digest Node.dir hd2 s1 s2 s3]
  simp [newEvents]

theorem storeInImagedb_idempotent_witness :
    (storeInImagedb (envOf (imageOf streamAB)) (imageOf streamAB)
        { Layers := [layerAbc], rest := "" }
        (storeInImagedb (envOf (imageOf streamAB)) (imageOf streamAB)
          { Layers := [layerAbc], rest := "" } freshWorld).1).2 = Outcome.exit 0 ∧
      (storeInImagedb (envOf (imageOf streamAB)) (imageOf streamAB)
        { Layers := [layerAbc], rest := "" }
        (storeInImagedb (envOf (imageOf streamAB)) (imageOf streamAB)
          { Layers := [layerAbc], rest := "" } freshWorld).1).1.fs =
        (storeInImagedb (envOf (imageOf streamAB)) (imageOf streamAB)
          { Layers := [layerAbc], rest := "" } freshWorld).1.fs :=
  ⟨(storeInImagedb_idempotent (envOf (imageOf streamAB)) (imageOf streamAB)
      (imageOf streamAB) { Layers := [layerAbc], rest := "" }
      { Layers := [layerAbc], rest := "" } freshWorld
      { Algorithm := "sha256", Hex := hexDd } rfl rfl (by decide)).1,
   (storeInImagedb_idempotent (envOf (imageOf streamAB)) (imageOf streamAB)
      (imageOf streamAB) { Layers := [layerAbc], rest := "" }
      { Layers := [layerAbc], rest := "" } freshWorld
      { Algorithm := "sha256", Hex := hexDd } rfl rfl (by decide)).2.1⟩

/-- C6: let the working directory exist, the filesystem be well formed, the
digest be an ordinary name and the image directory be missing.  When
`storeInImagedb` returns nil, both store roots and the image directory resolve
to directories afterwards, `manifest.json` in the image directory is a regular
file holding `json.MarshalIndent` of the manifest and `config.json` one holding
`json.MarshalIndent` of the config, the image directory has no other child, and
no path other than the two roots, the image directory and the two files has
changed. -/
theorem storeInImagedb_postcondition (env : Env) (img : Image) (manifest : Manifest)
    (w : World) (digest : Hash) (config : ConfigFile) (ic im : Bytes)
    (hd : img.Digest = Except.ok digest)
    (hc : img.ConfigFile = Except.ok config)
    (hic : env.marshalIndentConfig config = Except.ok ic)
    (him : env.marshalIndentManifest manifest = Except.ok im)
    (hname : IsName digest.Hex)
    (hcwd : stat w.fs env.cwd = Except.ok Node.dir)
    (hwf : WellFormed w.fs)
    (habs : lookup w.fs (imageDir env.cwd digest.Hex) = none)
    (hok : (storeInImagedb env img manifest w).2 = Outcome.ok) :
    stat (storeInImagedb env img manifest w).1.fs (resolve env.cwd imagedbPath) =
        Except.ok Node.dir ∧
      stat (storeInImagedb env img manifest w).1.fs (resolve env.cwd layerdbPath) =
        Except.ok Node.dir ∧
      stat (storeInImagedb env img manifest w).1.fs (imageDir env.cwd digest.Hex) =
        Except.ok Node.dir ∧
      stat (storeInImagedb env img manifest w).1.fs
        (imageDir env.cwd digest.Hex ++ ["manifest.json"]) = Except.ok (Node.file im) ∧
      stat (storeInImagedb env img manifest w).1.fs
        (imageDir env.cwd digest.Hex ++ ["config.json"]) = Except.ok (Node.file ic) ∧
      (∀ c, lookup (storeInImagedb env img manifest w).1.fs
          (imageDir env.cwd digest.Hex ++ [c]) ≠ none →
        c = "manifest.json" ∨ c = "config.json") ∧
      ∀ q, q ≠ resolve env.cwd imagedbPath → q ≠ resolve env.cwd layerdbPath →
        q ≠ imageDir env.cwd digest.Hex →
        q ≠ imageDir env.cwd digest.Hex ++ ["manifest.json"] →
        q ≠ imageDir env.cwd digest.Hex ++ ["config.json"] →
        lookup (storeInImagedb env img manifest w).1.fs q = lookup w.fs q := by
  obtain ⟨d1, c1, ic1, im1, hd1, hc1, hic1, him1, hext, s1, s2, s3, s4, s5, hframe⟩ :=
    storeInImagedb_ok_facts env img manifest w hok
  rw [hd] at hd1
  cases hd1
  rw [hc] at hc1
  cases hc1
  rw [hic] at hic1
  cases hic1
  rw [him] at him1
  cases him1
  have hbase : ∀ q, q <+: env.cwd.dropLast → lookup w.fs q = some Node.dir :=
    stat_prefix_dir _ _ (stat_dropLast _ _ hcwd)
  have hA : resolve env.cwd imagedbPath = env.cwd.dropLast ++ ["imagedb"] := by
    simp [imagedbPath, resolve, resolveStep]
  have hB : resolve env.cwd layerdbPath = env.cwd.dropLast ++ ["layerdb"] := by
    simp [layerdbPath, resolve, resolveStep]
  have hD : imageDir env.cwd digest.Hex = env.cwd.dropLast ++ ["imagedb"] ++ [digest.Hex] := by
    rw [imageDir_of_name env.cwd digest.Hex hname]
    simp
  have hrest : ∀ q, q ≠ resolve env.cwd imagedbPath → q ≠ resolve env.cwd layerdbPath →
      q ≠ imageDir env.cwd digest.Hex →
      q ≠ imageDir env.cwd digest.Hex ++ ["manifest.json"] →
      q ≠ imageDir env.cwd digest.Hex ++ ["config.json"] →
      lookup (storeInImagedb env img manifest w).1.fs q = lookup w.fs q := by
    intro q h1 h2 h3 h4 h5
    by_contra hne
    rcases hframe q hne with ⟨hpre, _⟩ | h | h
    · have hq : q <+: env.cwd.dropLast := by
        rcases hpre with h | h | h
        · rw [hA] at h h1
          rcases List.prefix_concat_iff.1 h with h | h
          · exact absurd h h1
          · exact h
        · rw [hB] at h h2
          rcases List.prefix_concat_iff.1 h with h | h
          · exact absurd h h2
          · exact h
        · rw [hD] at h h3
          rcases List.prefix_concat_iff.1 h with h | h
          · exact absurd h h3
          · rw [hA] at h1
            rcases List.prefix_concat_iff.1 h with h | h
            · exact absurd h h1
            · exact h
      have hl := hbase q hq
      exact hne (by rw [(hext q).1 hl, hl])
    · exact h5 h
    · exact h4 h
  refine ⟨s1, s2, s3, s5, s4, ?_, hrest⟩
  intro c hne
  by_contra hc2
  rw [not_or] at hc2
  have hlen : ∀ (l : List String) (a : String), l ++ [a] ≠ l := by
    intro l a h
    have := congrArg List.length h
    simp at this
  have hq := hrest (imageDir env.cwd digest.Hex ++ [c])
    (by
      rw [hA, hD]
      intro h
      have := congrArg List.length h
      simp at this)
    (by
      rw [hB, hD]
      intro h
      have := congrArg List.length h
      simp at this)
    (hlen _ _)
    (by simpa using hc2.1)
    (by simpa using hc2.2)
  rw [hq] at hne
  have := wellFormed_parent w.fs hwf _ c hne
  rw [habs] at this
  cases this

theorem storeInImagedb_postcondition_witness :
    stat (storeInImagedb (envOf (imageOf streamAB)) (imageOf streamAB)
        { Layers := [layerAbc], rest := "" } freshWorld).1.fs
        ["home", "u", "imagedb", hexDd, "manifest.json"] = Except.ok (Node.file [2]) ∧
      stat (storeInImagedb (envOf (imageOf streamAB)) (imageOf streamAB)
        { Layers := [layerAbc], rest := "" } freshWorld).1.fs
        ["home", "u", "imagedb", hexDd, "config.json"] = Except.ok (Node.file [1]) :=
  ⟨(storeInImagedb_postcondition (envOf (imageOf streamAB)) (imageOf streamAB)
      { Layers := [layerAbc], rest := "" } freshWorld
      { Algorithm := "sha256", Hex := hexDd } { doc := "cfg" } [1] [2] rfl rfl rfl rfl
      ⟨by decide, by decide, by decide⟩ (by decide) (by decide) (by decide)
      (by decide)).2.2.2.1,
   (storeInImagedb_postcondition (envOf (imageOf streamAB)) (imageOf streamAB)
      { Layers := [layerAbc], rest := "" } freshWorld
      { Algorithm := "sha256", Hex := hexDd } { doc := "cfg" } [1] [2] rfl rfl rfl rfl
      ⟨by decide, by decide, by decide⟩ (by decide) (by decide) (by decide)
      (by decide)).2.2.2.2.1⟩

/-- C9, as stated, fails: called without an image reference, the pull action
returns the error `error parsing image reference`, and `main` prints it and
ends with exit status 0. -/
theorem failure_exits_zero :
    (PullCommand.Action (envOf (imageOf streamAB)) freshWorld []).2 =
        Outcome.err (Error.wrap "error parsing image reference"
          (Error.external "could not parse reference")) ∧
      (main (envOf (imageOf streamAB)) freshWorld []).2 = 0 ∧
      (main (envOf (imageOf streamAB)) freshWorld []).1.trace =
        [Event.printError (Error.wrap "error parsing image reference"
          (Error.external "could not parse reference"))] := by
  decide

/-- C9, amended: whenever the pull action returns an error, `main` prints the
line `Error:` with that error after what the action did and changes nothing
else; and the exit status of the process is 0 in every case, failure included
(the only `os.Exit` of the program is the `os.Exit(0)` of the image cache hit,
and a `main` that returns ends with status 0). -/
theorem main_exit_status (env : Env) (w : World) (args : List String) :
    (main env w args).2 = 0 ∧
      ∀ e, (PullCommand.Action env w args).2 = Outcome.err e →
        (main env w args).1 =
          { fs := (PullCommand.Action env w args).1.fs,
            trace := (PullCommand.Action env w args).1.trace ++ [Event.printError e] } := by
  unfold main
  cases h : PullCommand.Action env w args with
  | mk w1 o =>
    cases o with
    | ok => simp
    | err e => simp [World.log]
    | exit code =>
      have := action_exit env w args code (by rw [h])
      simp [this]

theorem main_exit_status_witness :
    (main (envOf (imageOf streamAB)) freshWorld []).1 =
      { fs := (PullCommand.Action (envOf (imageOf streamAB)) freshWorld []).1.fs,
        trace := (PullCommand.Action (envOf (imageOf streamAB)) freshWorld []).1.trace ++
          [Event.printError (Error.wrap "error parsing image reference"
            (Error.external "could not parse reference"))] } :=
  (main_exit_status (envOf (imageOf streamAB)) freshWorld []).2 _ (by decide)

/-! ## Two pulls: the claim -/

/-- C5, as stated, fails: the image `aa` has the layers `mmm` and `abc`, the
image `bb` has the layer `abc`, and the archive of `mmm` holds the directory
`../abc`.  On a store without anything, pulling `aa` and then `bb` succeeds
both times, yet the stream of the shared layer `abc` is never requested:
unpacking `mmm` makes the directory of `abc`, which from then on counts as
cached. -/
theorem shared_layer_never_extracted :
    (PullCommand.Action (envTwo imageSneak) freshWorld ["first"]).2 = Outcome.ok ∧
      (PullCommand.Action (envTwo imageSneak)
        (PullCommand.Action (envTwo imageSneak) freshWorld ["first"]).1 ["second"]).2 = Outcome.ok ∧
      imageSneak.Digest ≠ imageSecond.Digest ∧
      imageSneak.Manifest = Except.ok { Layers := [layerMmm, layerAbc], rest := "" } ∧
      imageSecond.Manifest = Except.ok { Layers := [layerAbc], rest := "" } ∧
      List.count (Event.uncompressed hexAbc)
        (PullCommand.Action (envTwo imageSneak)
          (PullCommand.Action (envTwo imageSneak) freshWorld ["first"]).1 ["second"]).1.trace = 0 := by
  decide

/-- C5, amended: let two pulls run one after the other, each returning nil, the
first of an image with manifest `mA`, the second of an image with manifest `mB`,
both manifests holding the layer `layer`, on a store where the directory of that
layer is missing.  If the layer digests of `mA` are ordinary names and no
archive of the first image has an entry name with a `..` component, then the
first pull asks for the uncompressed stream of the shared digest exactly once,
the second pull never asks for it, and the second pull prints
`Layer found in cache` for that layer.  (That the second pull returns nil
implies that the two image digests differ.) -/
theorem shared_layer_extracted_once (env : Env) (w : World) (a b : String)
    (ra rb : Reference) (imgA imgB : Image) (mA mB : Manifest) (layer : Descriptor)
    (hpa : env.parseReference a = Except.ok ra)
    (hia : env.remoteImage ra = Except.ok imgA)
    (hma : imgA.Manifest = Except.ok mA)
    (hpb : env.parseReference b = Except.ok rb)
    (hib : env.remoteImage rb = Except.ok imgB)
    (hmb : imgB.Manifest = Except.ok mB)
    (hLA : layer ∈ mA.Layers) (hLB : layer ∈ mB.Layers)
    (hnames : ∀ d ∈ mA.Layers, IsName d.Digest.Hex)
    (hnd : ∀ d ∈ mA.Layers, ∀ l s, imgA.LayerByDigest d.Digest = Except.ok l →
      l.Uncompressed = Except.ok s → ∀ e ∈ s.entries, ".." ∉ splitPath e.Name)
    (hempty : lookup w.fs (layerDir env.cwd layer.Digest.Hex) = none)
    (hokA : (PullCommand.Action env w [a]).2 = Outcome.ok)
    (hokB : (PullCommand.Action env (PullCommand.Action env w [a]).1 [b]).2 = Outcome.ok) :
    List.count (Event.uncompressed layer.Digest.Hex) (PullCommand.Action env w [a]).1.trace =
        List.count (Event.uncompressed layer.Digest.Hex) w.trace + 1 ∧
      List.count (Event.uncompressed layer.Digest.Hex)
          (PullCommand.Action env (PullCommand.Action env w [a]).1 [b]).1.trace =
        List.count (Event.uncompressed layer.Digest.Hex) (PullCommand.Action env w [a]).1.trace ∧
      ∃ pre post, (PullCommand.Action env (PullCommand.Action env w [a]).1 [b]).1.trace =
        (PullCommand.Action env w [a]).1.trace ++ pre ++
          [Event.print ("Pulling layer:  " ++ layer.Digest.Hex),
           Event.stat (layerDir env.cwd layer.Digest.Hex),
           Event.print "Layer found in cache"] ++ post := by
  have hx : IsName layer.Digest.Hex := hnames layer hLA
  -- the first pull
  obtain ⟨hsA, heqA⟩ := action_ok_inv env w [a] ra imgA mA (by simpa using hpa) hia hma hokA
  obtain ⟨kA1, kA2, kA3, _⟩ := storeInImagedb_keeps_layer env imgA mA
    (println w ("Pulling image:  " ++ ra.Name)) layer.Digest.Hex hx hsA hempty
  rw [heqA] at hokA
  obtain ⟨fA, _⟩ := storeLayers_first env imgA layer.Digest.Hex hx mA.Layers _ hnames hnd
    kA3 kA1 hokA
  obtain ⟨dA, cA⟩ := fA ⟨layer, hLA, rfl⟩
  have hcountA : List.count (Event.uncompressed layer.Digest.Hex) (PullCommand.Action env w [a]).1.trace =
      List.count (Event.uncompressed layer.Digest.Hex) w.trace + 1 := by
    rw [heqA, cA, kA2]
    simp [println, World.log]
  have hdoneA : stat (PullCommand.Action env w [a]).1.fs (layerDir env.cwd layer.Digest.Hex) =
      Except.ok Node.dir := by
    rw [heqA]; exact dA
  -- the second pull
  obtain ⟨hsB, heqB⟩ := action_ok_inv env (PullCommand.Action env w [a]).1 [b] rb imgB mB
    (by simpa using hpb) hib hmb hokB
  obtain ⟨_, _, _, _, _, _, _, _, hextB, _⟩ := storeInImagedb_ok_facts env imgB mB
    (println (PullCommand.Action env w [a]).1 ("Pulling image:  " ++ rb.Name)) hsB
  obtain ⟨_, _, _, _, _, _, _, _, _, _, _, _, _, _, _, htrB⟩ := storeInImagedb_ok_inv env imgB mB
    (println (PullCommand.Action env w [a]).1 ("Pulling image:  " ++ rb.Name)) hsB
  have hdoneB : stat (storeInImagedb env imgB mB
      (println (PullCommand.Action env w [a]).1 ("Pulling image:  " ++ rb.Name))).1.fs
      (layerDir env.cwd layer.Digest.Hex) = Except.ok Node.dir :=
    stat_dir_of_ext hextB _ hdoneA
  obtain ⟨_, cB⟩ := storeLayers_done env imgB layer.Digest.Hex mB.Layers _ hdoneB
  rw [heqB] at hokB
  obtain ⟨pre, post, hrep⟩ := storeLayers_reports_cached env imgB layer mB.Layers _ hLB
    hdoneB hokB
  refine ⟨hcountA, ?_, ?_⟩
  · rw [heqB, cB, htrB]
    simp [println, World.log]
  · obtain ⟨evs, hevs⟩ : ∃ evs, (storeInImagedb env imgB mB
        (println (PullCommand.Action env w [a]).1 ("Pulling image:  " ++ rb.Name))).1.trace =
        (PullCommand.Action env w [a]).1.trace ++ evs :=
      ⟨_, by rw [htrB]; simp only [println, World.log, List.append_assoc]; rfl⟩
    rw [heqB, hrep, hevs]
    exact ⟨evs ++ pre, post, by simp only [List.append_assoc]⟩

theorem shared_layer_extracted_once_witness :
    List.count (Event.uncompressed hexAbc)
        (PullCommand.Action (envTwo imageFirst) freshWorld ["first"]).1.trace = 1 ∧
      List.count (Event.uncompressed hexAbc)
        (PullCommand.Action (envTwo imageFirst)
          (PullCommand.Action (envTwo imageFirst) freshWorld ["first"]).1 ["second"]).1.trace =
        List.count (Event.uncompressed hexAbc)
          (PullCommand.Action (envTwo imageFirst) freshWorld ["first"]).1.trace :=
  ⟨(shared_layer_extracted_once (envTwo imageFirst) freshWorld "first" "second"
      { Name := "first" } { Name := "second" } imageFirst imageSecond
      { Layers := [layerMmm, layerAbc], rest := "" } { Layers := [layerAbc], rest := "" }
      layerAbc rfl rfl rfl rfl rfl rfl (by decide) (by decide)
      (by
        intro d hd
        simp only [List.mem_cons, List.mem_singleton, List.not_mem_nil, or_false] at hd
        rcases hd with rfl | rfl <;> exact ⟨by decide, by decide, by decide⟩)
      (by
        intro d _ l s hl hu e he
        cases hl
        cases hu
        have hcases : e.Name = "a/" ∨ e.Name = "a/b.txt" := by
          simp only [streamAB, List.mem_cons, List.mem_singleton, List.not_mem_nil,
            or_false] at he
          rcases he with rfl | rfl
          · exact Or.inl rfl
          · exact Or.inr rfl
        rcases hcases with h | h <;> rw [h] <;> decide)
      (by decide) (by decide) (by decide)).1,
   (shared_layer_extracted_once (envTwo imageFirst) freshWorld "first" "second"
      { Name := "first" } { Name := "second" } imageFirst imageSecond
      { Layers := [layerMmm, layerAbc], rest := "" } { Layers := [layerAbc], rest := "" }
      layerAbc rfl rfl rfl rfl rfl rfl (by decide) (by decide)
      (by
        intro d hd
        simp only [List.mem_cons, List.mem_singleton, List.not_mem_nil, or_false] at hd
        rcases hd with rfl | rfl <;> exact ⟨by decide, by decide, by decide⟩)
      (by
        intro d _ l s hl hu e he
        cases hl
        cases hu
        have hcases : e.Name = "a/" ∨ e.Name = "a/b.txt" := by
          simp only [streamAB, List.mem_cons, List.mem_singleton, List.not_mem_nil,
            or_false] at he
          rcases he with rfl | rfl
          · exact Or.inl rfl
          · exact Or.inr rfl
        rcases hcases with h | h <;> rw [h] <;> decide)
      (by decide) (by decide) (by decide)).2.1⟩

end Container
